import Mathlib

/-!
Verification of the reddit-explorer repository core logic.

Text is modelled as `List Char` (the sequence of Unicode code points of a
Python `str`).  Network and model-completion calls are modelled by passing
their results in explicitly: a Python callable whose i-th invocation returns
`r i` is modelled by a function `r : Nat → List Char`, and a single completion
call by its result string.  Timestamps that the source formats with
`strftime("%Y-%m-%d %H:%M:%S")` are represented by their formatted strings.
-/

set_option maxRecDepth 100000

namespace RedditExplorer

/-- Sequence of characters, the model of a Python string. -/
abbrev Chars := List Char

/-- Membership test of a character class matching the ASCII part of the
Python regex class backslash-s and of the default `str.strip` separators. -/
def pySpace (c : Char) : Bool :=
  c = ' ' || c = '\t' || c = '\n' || c = '\r' || c = Char.ofNat 11 || c = Char.ofNat 12

/-- Model of Python `str.strip()`: remove leading and trailing whitespace. -/
def pyStrip (s : Chars) : Chars :=
  ((s.dropWhile pySpace).reverse.dropWhile pySpace).reverse

/-!
## Link importer: `retry_with_backoff` (src/reddit_explorer/link_importer.py)
-/

/-- Constant `LinkImporter.MAX_RETRIES` from link_importer.py. -/
def MAX_RETRIES : Nat := 10

/-- Constant `LinkImporter.INITIAL_RETRY_DELAY` (seconds) from link_importer.py. -/
def INITIAL_RETRY_DELAY : Nat := 1

/-- Constant `LinkImporter.MAX_RETRY_DELAY` (seconds) from link_importer.py. -/
def MAX_RETRY_DELAY : Nat := 30

/-- Error sentinel prefix checked by `retry_with_backoff`. -/
def errorSentinel : Chars := "Error fetching post details".toList

/-- Observable trace of one `retry_with_backoff` run: the returned value,
the number of times the operation was invoked, and the list of sleep
durations (seconds) in the order they were performed. -/
structure RetryTrace where
  result : Option Chars
  calls : Nat
  sleeps : List Nat
  deriving Repr, DecidableEq

/-- Loop body of `retry_with_backoff`: `for attempt in range(MAX_RETRIES)`,
invoking the operation, returning on a non-sentinel result, sleeping and
doubling the delay (capped at `MAX_RETRY_DELAY`) between sentinel attempts,
and skipping the sleep on the last attempt. -/
def retryLoop (operation : Nat → Chars) :
    (remaining attempt delay : Nat) → List Nat → RetryTrace
  | 0, attempt, _, sleeps => ⟨none, attempt, sleeps⟩
  | remaining + 1, attempt, delay, sleeps =>
    let result := operation attempt
    if errorSentinel.isPrefixOf result then
      if remaining = 0 then retryLoop operation remaining (attempt + 1) delay sleeps
      else
        retryLoop operation remaining (attempt + 1) (min (delay * 2) MAX_RETRY_DELAY)
          (sleeps ++ [delay])
    else ⟨some result, attempt + 1, sleeps⟩

/-- Model of `LinkImporter.retry_with_backoff`.  The operation argument gives
the result of the i-th invocation of the Python callable; `remaining`
counts the attempts the `for attempt in range(MAX_RETRIES)` loop has left,
so the sleep is skipped exactly on the last attempt. -/
def retry_with_backoff (operation : Nat → Chars) : RetryTrace :=
  retryLoop operation MAX_RETRIES 0 INITIAL_RETRY_DELAY []

/-!
## AI service: `categorize_post` (src/reddit_explorer/services/ai_service.py)
-/

/-- Literal category name used as the fallback. -/
def uncategorized : Chars := "Uncategorized".toList

/-- Scan for the closing tag of a non-DOTALL lazy group: returns the shortest
newline-free content followed by the closing literal, together with the
remainder after the closing literal, or none when a newline or the end of
input is reached first. -/
def scanToClose (close : Chars) : Chars → Option (Chars × Chars)
  | [] => none
  | c :: cs =>
    if close.isPrefixOf (c :: cs) then some ([], (c :: cs).drop close.length)
    else if c = '\n' then none
    else
      match scanToClose close cs with
      | some (content, rest) => some (c :: content, rest)
      | none => none

/-- Model of `re.search` for a pattern of the form
open-literal, lazy newline-free group, close-literal: try each start
position from the left; at a position where the opening literal matches,
succeed with the shortest group followed by the closing literal, otherwise
move one character to the right. -/
def searchTag (opening close : Chars) : Chars → Option Chars
  | [] => none
  | c :: cs =>
    if opening.isPrefixOf (c :: cs) then
      match scanToClose close ((c :: cs).drop opening.length) with
      | some (content, _) => some content
      | none => searchTag opening close cs
    else searchTag opening close cs

/-- Opening literal of the category tag pattern. -/
def catOpen : Chars := "<category>".toList

/-- Closing literal of the category tag pattern. -/
def catClose : Chars := "</category>".toList

/-- Category extraction step of `AIService.categorize_post`: search the model
response for the first category tag, strip the content, and keep it only when
it is a key of the supplied category dictionary, falling back to
"Uncategorized" otherwise. -/
def extractCategory (categories : List (Chars × Option Chars)) (response : Chars) :
    Chars :=
  match searchTag catOpen catClose response with
  | none => uncategorized
  | some content =>
    let suggested := pyStrip content
    if categories.any (fun kv => kv.1 = suggested) then suggested else uncategorized

/-- Model of `AIService.categorize_post`.  `summary` is the optional
pre-generated summary argument, `summarizeResult` the value that
`summarize_post` would return when invoked, and `response` the completion
result of the categorization call.  Returns the (category, summary) pair. -/
def categorize_post (categories : List (Chars × Option Chars))
    (summary : Option Chars) (summarizeResult : Option Chars)
    (response : Chars) : Chars × Option Chars :=
  match summary with
  | none =>
    match summarizeResult with
    | none => (uncategorized, none)
    | some s => (extractCategory categories response, some s)
  | some s => (extractCategory categories response, some s)

/-!
## AI service: `generate_bullet_points` and `_select_most_valuable_points`
(src/reddit_explorer/services/ai_service.py)
-/

/-- Conversion of a nonempty digit string to a number, the model of Python
`int` applied to a match of a digit-run group. -/
def digitsToNat (ds : Chars) : Nat :=
  ds.foldl (fun a c => a * 10 + (c.toNat - 48)) 0

/-- State-machine model of `re.sub` with a whitespace-run pattern and a
single-space replacement: collapse each maximal whitespace run into one
space.  The flag records whether the previous character was whitespace. -/
def normWsGo (prevWs : Bool) : Chars → Chars
  | [] => []
  | c :: cs =>
    if pySpace c then
      if prevWs then normWsGo true cs else ' ' :: normWsGo true cs
    else c :: normWsGo false cs

/-- Model of `re.sub` collapsing whitespace runs to single spaces. -/
def normalizeWs (s : Chars) : Chars := normWsGo false s

/-- Character class of the two quote characters stripped from a point text. -/
def quoteChar (c : Char) : Bool := c = '"' || c = Char.ofNat 39

/-- Model of `str.strip` with the two quote characters as argument. -/
def stripQuotes (s : Chars) : Chars :=
  ((s.dropWhile quoteChar).reverse.dropWhile quoteChar).reverse

/-- Opening literal of the selected-index tag pattern. -/
def selOpen : Chars := "<selected>".toList

/-- Closing literal of the selected-index tag pattern. -/
def selClose : Chars := "</selected>".toList

/-- Match of a fixed literal at the current position, returning the
remainder after it: the model of a literal piece of a regex pattern. -/
def dropLit (lit : Chars) (cs : Chars) : Option Chars :=
  if lit.isPrefixOf cs then some (cs.drop lit.length) else none

theorem dropLit_length {lit cs r : Chars} (h : dropLit lit cs = some r) :
    r.length + lit.length = cs.length := by
  unfold dropLit at h
  split at h
  case isTrue hpre =>
    have hle : lit.length ≤ cs.length :=
      List.IsPrefix.length_le (List.isPrefixOf_iff_prefix.mp hpre)
    simp only [Option.some.injEq] at h
    subst h
    simp only [List.length_drop]
    omega
  case isFalse => exact absurd h (by simp)

theorem length_dropWhile_le {p : Char → Bool} (l : Chars) :
    (l.dropWhile p).length ≤ l.length := by
  induction l with
  | nil => simp
  | cons c cs ih =>
    rw [List.dropWhile_cons]
    split
    · exact Nat.le_trans ih (Nat.le_succ _)
    · simp

/-- Match of the selected-index pattern at the current position: the opening
literal, optional whitespace, a nonempty digit run, optional whitespace and
the closing literal.  Returns the selected number and the remainder after
the match.  Greedy whitespace and digit runs are forced here because each is
followed by a character outside its class, so the backtracking regex match
is deterministic. -/
def matchSelAt (cs : Chars) : Option (Nat × Chars) :=
  match dropLit selOpen cs with
  | none => none
  | some t0 =>
    if (t0.dropWhile pySpace).takeWhile Char.isDigit = [] then none
    else
      match dropLit selClose
          (((t0.dropWhile pySpace).drop
            ((t0.dropWhile pySpace).takeWhile Char.isDigit).length).dropWhile pySpace) with
      | none => none
      | some t3 =>
        some (digitsToNat ((t0.dropWhile pySpace).takeWhile Char.isDigit), t3)

/-- Scan loop of `re.finditer` with the selected-index pattern: try each
start position from the left, collect the numbers of non-overlapping
matches and resume after each match.  The structural fuel bounds the number
of scan steps; every step consumes at least one character, so the fuel
passed by `findSelected` is never exhausted. -/
def findSelectedGo : Nat → Chars → List Nat
  | _, [] => []
  | 0, _ :: _ => []
  | fuel + 1, c :: cs =>
    match matchSelAt (c :: cs) with
    | some (n, rest) => n :: findSelectedGo fuel rest
    | none => findSelectedGo fuel cs

/-- Model of `re.finditer` with the selected-index pattern. -/
def findSelected (cs : Chars) : List Nat := findSelectedGo cs.length cs

/-- Model of the Python `set.add` on an insertion-ordered duplicate-free
list. -/
def addToSet (s : List Nat) (i : Nat) : List Nat :=
  if i ∈ s then s else s ++ [i]

/-- Valid-index set collected by `_select_most_valuable_points`: every
matched selected index in response order, kept when below the bound,
de-duplicated. -/
def validSelected (response : Chars) (bound : Nat) : List Nat :=
  (findSelected response).foldl (fun s i => if i < bound then addToSet s i else s) []

/-- Selection of list elements whose position belongs to an index set,
in original order: the model of a Python filtered enumerate comprehension. -/
def idxFilter (l : List (Chars × Chars)) (s : List Nat) : List (Chars × Chars) :=
  (l.enum.filter (fun ip => ip.1 ∈ s)).map Prod.snd

/-- Model of `AIService._select_most_valuable_points`: return the input
unchanged when it has at most `maxPoints` elements; otherwise collect the
valid selected indices from the model response, fall back to the first
`maxPoints` index range when fewer than `maxPoints` were selected, keep only
the `maxPoints` smallest when more were selected, and return the points at
the chosen indices in original order. -/
def select_most_valuable_points (points : List (Chars × Chars)) (response : Chars)
    (maxPoints : Nat) : List (Chars × Chars) :=
  if points.length ≤ maxPoints then points
  else
    let selected0 := validSelected response points.length
    let selected1 :=
      if selected0.length < maxPoints then List.range (min maxPoints points.length)
      else selected0
    let selected2 :=
      if selected1.length > maxPoints then
        (selected1.insertionSort (· ≤ ·)).take maxPoints
      else selected1
    idxFilter points selected2

/-- Opening literal of the point tag pattern. -/
def pointOpen : Chars := "<point>".toList

/-- Closing literal of the point tag pattern. -/
def pointClose : Chars := "</point>".toList

/-- Opening literal of the id tag pattern. -/
def idOpen : Chars := "<id>".toList

/-- Closing literal of the id tag pattern. -/
def idClose : Chars := "</id>".toList

/-- Attempted match of the tail of the point pattern at the current lazy
group boundary: optional whitespace, the closing point literal, optional
whitespace, the id tag with an enclosed digit run.  Returns the digit run
and the remainder after the full match.  Whitespace and digit runs are
forced maximal because each is followed by a character outside its class. -/
def closeAfterPoint (cs : Chars) : Option (Chars × Chars) :=
  match dropLit pointClose (cs.dropWhile pySpace) with
  | none => none
  | some t0 =>
    match dropLit idOpen (t0.dropWhile pySpace) with
    | none => none
    | some t1 =>
      if (t1.dropWhile pySpace).takeWhile Char.isDigit = [] then none
      else
        match dropLit idClose
            (((t1.dropWhile pySpace).drop
              ((t1.dropWhile pySpace).takeWhile Char.isDigit).length).dropWhile
                pySpace) with
        | none => none
        | some t2 => some ((t1.dropWhile pySpace).takeWhile Char.isDigit, t2)

theorem closeAfterPoint_shrinks {cs ds rest : Chars}
    (h : closeAfterPoint cs = some (ds, rest)) : rest.length ≤ cs.length := by
  unfold closeAfterPoint at h
  split at h
  · exact absurd h (by simp)
  case h_2 t0 h0 =>
    split at h
    · exact absurd h (by simp)
    case h_2 t1 h1 =>
      split at h
      · exact absurd h (by simp)
      · split at h
        · exact absurd h (by simp)
        case h_2 t2 h2 =>
          simp only [Option.some.injEq, Prod.mk.injEq] at h
          obtain ⟨-, hr⟩ := h
          subst hr
          have e0 := dropLit_length h0
          have e1 := dropLit_length h1
          have e2 := dropLit_length h2
          have f0 : (cs.dropWhile pySpace).length ≤ cs.length := length_dropWhile_le _
          have f1 : (t0.dropWhile pySpace).length ≤ t0.length := length_dropWhile_le _
          have f2 : (((t1.dropWhile pySpace).drop
              ((t1.dropWhile pySpace).takeWhile Char.isDigit).length).dropWhile
                pySpace).length ≤ (t1.dropWhile pySpace).length :=
            Nat.le_trans (length_dropWhile_le _) (by simp [List.length_drop])
          have f3 : (t1.dropWhile pySpace).length ≤ t1.length := length_dropWhile_le _
          omega

/-- Walk of the lazy DOTALL group of the point pattern: extend the group one
character at a time until the pattern tail matches, accumulating the group in
reverse. -/
def scanPointBody (acc : Chars) : Chars → Option (Chars × Chars × Chars)
  | [] =>
    match closeAfterPoint [] with
    | some (ds, rest) => some (acc.reverse, ds, rest)
    | none => none
  | c :: cs' =>
    match closeAfterPoint (c :: cs') with
    | some (ds, rest) => some (acc.reverse, ds, rest)
    | none => scanPointBody (c :: acc) cs'

/-- Match of the full point pattern at the current position: the opening
literal, maximal leading whitespace (correct because the lazy DOTALL group
that follows accepts every character, so taking the maximal run never
removes a match), then the lazy group and the pattern tail.  Returns the
group, the digit run and the remainder after the match. -/
def matchPointAt (cs : Chars) : Option (Chars × Chars × Chars) :=
  if pointOpen.isPrefixOf cs then
    scanPointBody [] ((cs.drop pointOpen.length).dropWhile pySpace)
  else none

/-- Scan loop of `re.finditer` with the point pattern: try each start
position from the left, collect the (group, digit-run) pairs of
non-overlapping matches and resume after each match.  The structural fuel
bounds the number of scan steps; every step consumes at least one character,
so the fuel passed by `findPoints` is never exhausted. -/
def findPointsGo : Nat → Chars → List (Chars × Chars)
  | _, [] => []
  | 0, _ :: _ => []
  | fuel + 1, c :: cs =>
    match matchPointAt (c :: cs) with
    | some (g, ds, rest) => (g, ds) :: findPointsGo fuel rest
    | none => findPointsGo fuel cs

/-- Model of `re.finditer` with the point pattern. -/
def findPoints (cs : Chars) : List (Chars × Chars) := findPointsGo cs.length cs

/-- Model of `AIService._process_bullet_point_batch`: parse every point match
from the batch response, clean the point text (strip, collapse whitespace,
strip quotes), and keep the point paired with the post id of the batch entry
at the matched batch-relative index when that index is in range. -/
def process_bullet_point_batch (batch : List (Chars × Chars)) (response : Chars) :
    List (Chars × Chars) :=
  (findPoints response).foldl
    (fun acc gd =>
      let txt := stripQuotes (normalizeWs (pyStrip gd.1))
      let idx := digitsToNat gd.2
      if idx < batch.length then acc ++ [(txt, (batch.getD idx ([], [])).2)]
      else acc)
    []

/-- Batch size constant of `generate_bullet_points`. -/
def BATCH_SIZE : Nat := 30

/-- Combined insight list accumulated over all batches of
`generate_bullet_points`: batch b covers the summaries from position
30 b to 30 b + 29, and `batchResponse b` is the completion result of the
call for batch b. -/
def allBulletPoints (summaries : List (Chars × Chars)) (batchResponse : Nat → Chars) :
    List (Chars × Chars) :=
  (List.range ((summaries.length + BATCH_SIZE - 1) / BATCH_SIZE)).foldl
    (fun acc b =>
      acc ++ process_bullet_point_batch
        ((summaries.drop (b * BATCH_SIZE)).take BATCH_SIZE) (batchResponse b))
    []

/-- Sentinel entry returned when no insight survives. -/
def noInsights : Chars × Chars :=
  ("No significant technical insights found in the recent posts.".toList, [])

/-- Model of `AIService.generate_bullet_points`: process the summaries in
batches of 30, run the selection pass when more than 15 insights were
produced, and fall back to the no-insight sentinel entry when none were. -/
def generate_bullet_points (summaries : List (Chars × Chars))
    (batchResponse : Nat → Chars) (selectionResponse : Chars) :
    List (Chars × Chars) :=
  let all := allBulletPoints summaries batchResponse
  let all2 :=
    if all ≠ [] ∧ all.length > 15 then
      select_most_valuable_points all selectionResponse 15
    else all
  if all2 = [] then [noInsights] else all2

/-!
## Reddit service: `fetch_all_subreddit_posts`
(src/reddit_explorer/services/reddit_service.py) and the subreddit
post-loading selection loop of `_load_subreddit_posts`
(src/reddit_explorer/ui/main_window.py)
-/

/-- Model of the `RedditPost` dataclass (src/reddit_explorer/data/models.py).
The float `created_utc` is modelled as an integer number of epoch seconds. -/
structure RedditPost where
  id : Chars
  title : Chars
  url : Option Chars
  subreddit : Chars
  created_utc : Int
  num_comments : Nat
  selftext : Chars
  deriving Repr, DecidableEq

/-- Reddit fullname of a post, `"t3_" + post.id`, used as pagination
cursor. -/
def t3 (s : Chars) : Chars := "t3_".toList ++ s

/-- Constant `MAX_POSTS` from config/constants.py. -/
def MAX_POSTS : Nat := 400

/-- Model of one call of `fetch_subreddit_posts` against an abstract
subreddit listing (external interface: the new-posts endpoint returns pages
of up to 100 posts; with an `after` fullname it returns the posts following
the post with that fullname).  A request with an unknown cursor, like a
failed request, yields the empty page. -/
def pageFor (listing : List RedditPost) : Option Chars → List RedditPost
  | none => listing.take 100
  | some after =>
    (((listing.dropWhile (fun p => decide (t3 p.id ≠ after))).drop 1).take 100)

/-- Loop of `fetch_all_subreddit_posts`: while fewer than `maxPosts` posts
are accumulated, request a page for the current cursor, stop on an empty
page, extend the accumulator and continue from the fullname of the last
post of the page.  The structural fuel bounds the number of iterations;
every iteration adds at least one post, so the fuel passed by
`fetch_all_subreddit_posts` is never exhausted. -/
def fetchAllGo (page : Option Chars → List RedditPost) (maxPosts : Nat) :
    Nat → List RedditPost → Option Chars → List RedditPost
  | 0, all, _ => all
  | fuel + 1, all, after =>
    if all.length < maxPosts then
      match page after with
      | [] => all
      | p :: ps =>
        fetchAllGo page maxPosts fuel (all ++ p :: ps)
          (some (t3 (((p :: ps).getLast (List.cons_ne_nil p ps)).id)))
    else all

/-- Model of `RedditService.fetch_all_subreddit_posts`, parameterized by the
page-fetching function. -/
def fetch_all_subreddit_posts (page : Option Chars → List RedditPost)
    (maxPosts : Nat) : List RedditPost :=
  (fetchAllGo page maxPosts (maxPosts + 1) [] none).take maxPosts

/-- Selection loop of `_load_subreddit_posts` (main_window.py lines
417-427): append each fetched post to `posts_to_show`, stop right after
appending a post whose id is in the saved set, and stop once 200 posts are
accumulated. -/
def selectLoop (savedIds : List Chars) : List RedditPost → List RedditPost →
    List RedditPost
  | [], acc => acc
  | p :: rest, acc =>
    if p.id ∈ savedIds then acc ++ [p]
    else if 200 ≤ (acc ++ [p]).length then acc ++ [p]
    else selectLoop savedIds rest (acc ++ [p])

/-- Model of the subreddit post-loading operation of
`_load_subreddit_posts`: fetch up to `MAX_POSTS` posts of the listing, then
select the prefix up to and including the first already-saved post, capped
at 200 posts.  The subsequent reversal for display is omitted; the claim is
about which posts are selected. -/
def load_subreddit_posts (listing : List RedditPost) (savedIds : List Chars) :
    List RedditPost :=
  selectLoop savedIds (fetch_all_subreddit_posts (pageFor listing) MAX_POSTS) []

/-- Pagination cursor corresponding to an already-fetched prefix of the
listing: none for the empty prefix, otherwise the fullname of its last
post. -/
def cursorOf (pre : List RedditPost) : Option Chars :=
  match pre.getLast? with
  | none => none
  | some p => some (t3 p.id)

/-!
## Theorems for claims C5 and C10
-/

theorem idxFilter_sublist (l : List (Chars × Chars)) (s : List Nat) :
    (idxFilter l s).Sublist l := by
  have h1 : (l.enum.filter (fun ip => ip.1 ∈ s)).Sublist l.enum :=
    List.filter_sublist _
  have h2 := h1.map Prod.snd
  simpa [idxFilter] using h2

theorem enumFrom_filter_lt (l : List (Chars × Chars)) (s k : Nat) :
    (((List.enumFrom s l).filter (fun ip => ip.1 < k)).map Prod.snd) =
      l.take (k - s) := by
  induction l generalizing s with
  | nil => simp
  | cons a l ih =>
    show ((((s, a) :: List.enumFrom (s + 1) l).filter
      (fun ip => ip.1 < k)).map Prod.snd) = (a :: l).take (k - s)
    rw [List.filter_cons]
    by_cases hs : s < k
    · rw [if_pos (by exact decide_eq_true hs)]
      have hks : k - s = (k - (s + 1)) + 1 := by omega
      rw [hks, List.take_succ_cons, List.map_cons, ih]
    · rw [if_neg (by simpa using hs)]
      have h0 : k - s = 0 := by omega
      have h1 : k - (s + 1) = 0 := by omega
      rw [ih, h0, h1]
      simp

theorem idxFilter_range (l : List (Chars × Chars)) (k : Nat) :
    idxFilter l (List.range k) = l.take k := by
  unfold idxFilter
  have hc : l.enum.filter (fun ip => ip.1 ∈ List.range k) =
      l.enum.filter (fun ip => ip.1 < k) := by
    apply List.filter_congr
    intro x _
    simp [List.mem_range]
  rw [hc]
  have := enumFrom_filter_lt l 0 k
  simpa [List.enum] using this

theorem countP_cons_mem (l : List Nat) (a : Nat) (S : List Nat) (ha : a ∉ S) :
    l.countP (fun i => i ∈ a :: S) = l.count a + l.countP (fun i => i ∈ S) := by
  induction l with
  | nil => simp
  | cons b l ih =>
    rw [List.countP_cons _ _ _, List.count_cons _ _ _, List.countP_cons _ _ _, ih]
    by_cases hba : b = a
    · subst hba
      have hbs : b ∉ S := ha
      simp [hbs]
      omega
    · by_cases hbs : b ∈ S
      · simp [hba, hbs]
        omega
      · simp [hba, hbs]

theorem countP_range_mem (S : List Nat) (n : Nat) (hnd : S.Nodup)
    (hb : ∀ i ∈ S, i < n) :
    (List.range n).countP (fun i => i ∈ S) = S.length := by
  induction S with
  | nil => simp
  | cons a S' ih =>
    have ha : a < n := hb a (by simp)
    have hna : a ∉ S' := (List.nodup_cons.mp hnd).1
    rw [countP_cons_mem _ a S' hna]
    rw [List.count_eq_one_of_mem (List.nodup_range n) (List.mem_range.mpr ha)]
    rw [ih (List.nodup_cons.mp hnd).2 (fun i hi => hb i (by simp [hi]))]
    rw [List.length_cons]
    omega

theorem idxFilter_length (l : List (Chars × Chars)) (S : List Nat)
    (hnd : S.Nodup) (hb : ∀ i ∈ S, i < l.length) :
    (idxFilter l S).length = S.length := by
  unfold idxFilter
  rw [List.length_map, ← List.countP_eq_length_filter _ _]
  have hm : l.enum.countP (fun ip => ip.1 ∈ S) =
      (l.enum.map Prod.fst).countP (fun i => i ∈ S) := by
    rw [List.countP_map _ _ _]
    rfl
  rw [hm]
  have he : l.enum.map Prod.fst = List.range l.length := by simp
  rw [he]
  exact countP_range_mem S l.length hnd hb

theorem addToSet_invariant (s : List Nat) (i b : Nat) (hi : i < b)
    (h : s.Nodup ∧ ∀ j ∈ s, j < b) :
    (addToSet s i).Nodup ∧ ∀ j ∈ addToSet s i, j < b := by
  unfold addToSet
  split
  · exact h
  case isFalse hmem =>
    constructor
    · simpa [List.nodup_append] using ⟨h.1, fun hc => hmem hc⟩
    · intro j hj
      rcases List.mem_append.mp hj with hj | hj
      · exact h.2 j hj
      · simp at hj
        subst hj
        exact hi

theorem validSelected_invariant (response : Chars) (b : Nat) :
    (validSelected response b).Nodup ∧ ∀ i ∈ validSelected response b, i < b := by
  unfold validSelected
  suffices h : ∀ (ids : List Nat) (acc : List Nat),
      acc.Nodup → (∀ i ∈ acc, i < b) →
      ((ids.foldl (fun s i => if i < b then addToSet s i else s) acc).Nodup ∧
        ∀ i ∈ ids.foldl (fun s i => if i < b then addToSet s i else s) acc, i < b) by
    exact h (findSelected response) [] (by simp) (by simp)
  intro ids
  induction ids with
  | nil => intro acc h1 h2; exact ⟨h1, h2⟩
  | cons i ids ih =>
    intro acc h1 h2
    rw [List.foldl_cons]
    by_cases hi : i < b
    · simp only [hi, if_true]
      have := addToSet_invariant acc i b hi ⟨h1, h2⟩
      exact ih _ this.1 this.2
    · simp only [hi, if_false]
      exact ih acc h1 h2

/-- Claim C10: for every input list of bullet points and every
selection-model response, the list returned by
`_select_most_valuable_points` is an order-preserving duplicate-free
sub-list (a sublist) of the input, and when the input has at most
`maxPoints` elements it is returned unchanged. -/
theorem select_points_order_preserving (points : List (Chars × Chars))
    (response : Chars) (maxPoints : Nat) :
    (select_most_valuable_points points response maxPoints).Sublist points ∧
      (points.length ≤ maxPoints →
        select_most_valuable_points points response maxPoints = points) := by
  constructor
  · unfold select_most_valuable_points
    split
    · exact List.Sublist.refl points
    · exact idxFilter_sublist points _
  · intro h
    simp [select_most_valuable_points, h]

/-- Witness for C10 at a concrete input: a one-element input is returned
unchanged. -/
theorem select_points_order_preserving_witness :
    select_most_valuable_points [(['a'], ['b'])] [] 15 = [(['a'], ['b'])] :=
  (select_points_order_preserving [(['a'], ['b'])] [] 15).2 (by decide)

theorem select_eq_of_few (points : List (Chars × Chars)) (response : Chars)
    (maxPoints : Nat) (hlen : maxPoints < points.length)
    (hfew : (validSelected response points.length).length < maxPoints) :
    select_most_valuable_points points response maxPoints =
      points.take maxPoints := by
  unfold select_most_valuable_points
  rw [if_neg (by omega)]
  simp only [hfew, if_true]
  have hmin : min maxPoints points.length = maxPoints := by omega
  rw [hmin]
  have hr : (List.range maxPoints).length > maxPoints ↔ False := by simp
  simp only [List.length_range, gt_iff_lt, lt_irrefl, if_false]
  exact idxFilter_range points maxPoints

theorem select_eq_of_exact (points : List (Chars × Chars)) (response : Chars)
    (maxPoints : Nat) (hlen : maxPoints < points.length)
    (hex : (validSelected response points.length).length = maxPoints) :
    select_most_valuable_points points response maxPoints =
      idxFilter points (validSelected response points.length) := by
  unfold select_most_valuable_points
  rw [if_neg (by omega)]
  simp only [hex, lt_irrefl, if_false, gt_iff_lt]

theorem select_eq_of_many (points : List (Chars × Chars)) (response : Chars)
    (maxPoints : Nat) (hlen : maxPoints < points.length)
    (hmany : maxPoints < (validSelected response points.length).length) :
    select_most_valuable_points points response maxPoints =
      idxFilter points
        (((validSelected response points.length).insertionSort (· ≤ ·)).take
          maxPoints) := by
  unfold select_most_valuable_points
  rw [if_neg (by omega)]
  have h1 : ¬ ((validSelected response points.length).length < maxPoints) := by
    omega
  simp only [h1, if_false, gt_iff_lt, hmany, if_true]

theorem select_length_eq (points : List (Chars × Chars)) (response : Chars)
    (maxPoints : Nat) (hlen : maxPoints < points.length) :
    (select_most_valuable_points points response maxPoints).length = maxPoints := by
  rcases validSelected_invariant response points.length with ⟨hnd, hb⟩
  rcases Nat.lt_trichotomy (validSelected response points.length).length maxPoints
    with hfew | hex | hmany
  · rw [select_eq_of_few points response maxPoints hlen hfew]
    rw [List.length_take]
    omega
  · rw [select_eq_of_exact points response maxPoints hlen hex]
    rw [idxFilter_length _ _ hnd hb]
    exact hex
  · rw [select_eq_of_many points response maxPoints hlen hmany]
    set S := validSelected response points.length with hS
    have hperm : (S.insertionSort (· ≤ ·)).Perm S := List.perm_insertionSort _ _
    have hnd2 : (S.insertionSort (· ≤ ·)).Nodup := hperm.nodup_iff.mpr hnd
    have hsub : ((S.insertionSort (· ≤ ·)).take maxPoints).Sublist
        (S.insertionSort (· ≤ ·)) := List.take_sublist _ _
    have hnd3 : ((S.insertionSort (· ≤ ·)).take maxPoints).Nodup :=
      hsub.nodup hnd2
    have hb3 : ∀ i ∈ (S.insertionSort (· ≤ ·)).take maxPoints, i < points.length :=
      fun i hi => hb i (hperm.mem_iff.mp (hsub.mem hi))
    rw [idxFilter_length _ _ hnd3 hb3]
    rw [List.length_take, List.length_insertionSort]
    omega

theorem generate_eq_select (summaries : List (Chars × Chars))
    (batchResponse : Nat → Chars) (selectionResponse : Chars)
    (h : 15 < (allBulletPoints summaries batchResponse).length) :
    generate_bullet_points summaries batchResponse selectionResponse =
      select_most_valuable_points (allBulletPoints summaries batchResponse)
        selectionResponse 15 := by
  have hne : allBulletPoints summaries batchResponse ≠ [] := by
    intro hc
    rw [hc] at h
    simp at h
  have hlen2 := select_length_eq (allBulletPoints summaries batchResponse)
    selectionResponse 15 h
  have hne2 : select_most_valuable_points (allBulletPoints summaries batchResponse)
      selectionResponse 15 ≠ [] := by
    intro hc
    rw [hc] at hlen2
    simp at hlen2
  have hcond : allBulletPoints summaries batchResponse ≠ [] ∧
      (allBulletPoints summaries batchResponse).length > 15 := ⟨hne, h⟩
  simp only [generate_bullet_points]
  rw [if_pos hcond, if_neg hne2]

/-- Claim C5 (amended): when batch processing yields more than 15 raw insight
points, `generate_bullet_points` returns exactly 15 items regardless of the
selection response; when the selection response yields fewer than 15 valid
indices the result is the first 15 points in original order, and when it
yields more than 15 valid indices the result is the points at the 15
smallest selected indices, in original order. -/
theorem insight_cap_enforcement (summaries : List (Chars × Chars))
    (batchResponse : Nat → Chars) (selectionResponse : Chars)
    (h : 15 < (allBulletPoints summaries batchResponse).length) :
    (generate_bullet_points summaries batchResponse selectionResponse).length = 15 ∧
      ((validSelected selectionResponse
          (allBulletPoints summaries batchResponse).length).length < 15 →
        generate_bullet_points summaries batchResponse selectionResponse =
          (allBulletPoints summaries batchResponse).take 15) ∧
      (15 < (validSelected selectionResponse
          (allBulletPoints summaries batchResponse).length).length →
        generate_bullet_points summaries batchResponse selectionResponse =
          idxFilter (allBulletPoints summaries batchResponse)
            (((validSelected selectionResponse
                (allBulletPoints summaries batchResponse).length).insertionSort
              (· ≤ ·)).take 15)) := by
  rw [generate_eq_select summaries batchResponse selectionResponse h]
  exact ⟨select_length_eq _ _ 15 h,
    fun hf => select_eq_of_few _ _ 15 h hf,
    fun hm => select_eq_of_many _ _ 15 h hm⟩

/-- Concrete one-summary input used to exercise the insight pipeline. -/
def demoSummaries : List (Chars × Chars) := [("s".toList, "p0".toList)]

/-- Concrete batch response producing 17 raw insight points, all attributed
to batch index 0. -/
def demoBatchResponse : Nat → Chars := fun _ =>
  (String.join ((List.range 17).map
    (fun i => "<point>t" ++ toString i ++ "</point><id>0</id>"))).toList

/-- Concrete selection response with a single valid index. -/
def demoSelFew : Chars := "<selected>2</selected>".toList

/-- Concrete selection response with 16 valid indices 1..16. -/
def demoSelMany : Chars :=
  (String.join ((List.range 16).map
    (fun i => "<selected>" ++ toString (i + 1) ++ "</selected>"))).toList

/-- Witness for C5 at a concrete input: 17 raw points and a single-index
selection response give exactly the first 15 points. -/
theorem insight_cap_enforcement_witness :
    (generate_bullet_points demoSummaries demoBatchResponse demoSelFew).length
        = 15 ∧
      generate_bullet_points demoSummaries demoBatchResponse demoSelFew =
        (allBulletPoints demoSummaries demoBatchResponse).take 15 := by
  have H := insight_cap_enforcement demoSummaries demoBatchResponse demoSelFew
    (by decide)
  exact ⟨H.1, H.2.1 (by decide)⟩

/-- Counterexample to C5 as stated: with 17 raw points and a selection
response naming the 16 valid indices 1..16, the result is not the first 15
points in original order. -/
theorem insight_cap_first15_counterexample :
    15 < (allBulletPoints demoSummaries demoBatchResponse).length ∧
      15 < (validSelected demoSelMany
        (allBulletPoints demoSummaries demoBatchResponse).length).length ∧
      generate_bullet_points demoSummaries demoBatchResponse demoSelMany ≠
        (allBulletPoints demoSummaries demoBatchResponse).take 15 :=
  ⟨by decide, by decide, by decide⟩

/-!
## Post detail rendering (`fetch_post_details`,
src/reddit_explorer/services/reddit_service.py) and markdown parsing
(`extract_post_info_from_content`, src/reddit_explorer/link_importer.py)
-/

mutual
/-- Comment node of the detail response, as consumed by `format_comment`:
the kind flag models `kind == "t1"`, a missing body models a
deleted/removed comment (skipped together with its replies), and the time
string is the `strftime("%Y-%m-%d %H:%M:%S")` rendering of the comment
timestamp. -/
inductive RComment : Type where
  | node (isComment : Bool) (author : Chars) (body : Option Chars)
      (timeStr : Chars) (replies : RCommentList) : RComment

/-- List of comment nodes, mutually defined with `RComment`. -/
inductive RCommentList : Type where
  | nil : RCommentList
  | cons : RComment → RCommentList → RCommentList
end

/-- Indentation of `format_comment`: two spaces per depth level. -/
def indentOf (depth : Nat) : Chars := List.replicate (2 * depth) ' '

mutual
/-- Model of `format_comment`: a non-comment entry or a comment with a null
body renders as nothing (its replies included); otherwise an attribution
line, the body and the recursively rendered replies at the next depth. -/
def renderComment (depth : Nat) : RComment → Chars
  | .node isComment author body timeStr replies =>
    if isComment then
      match body with
      | none => []
      | some b =>
        indentOf depth ++ "**u/".toList ++ author ++ "** on ".toList ++ timeStr ++
          "\n\n".toList ++ indentOf depth ++ b ++ "\n\n".toList ++
          renderCommentList (depth + 1) replies
    else []

/-- Model of the comment loop of `fetch_post_details`: concatenation of the
renderings of a list of comment nodes. -/
def renderCommentList (depth : Nat) : RCommentList → Chars
  | .nil => []
  | .cons c cs => renderComment depth c ++ renderCommentList depth cs
end

mutual
/-- Number of comments rendered by `format_comment` for one node: one per
comment with a body, plus its rendered replies; skipped nodes contribute
nothing. -/
def countRendered : RComment → Nat
  | .node isComment _ body _ replies =>
    if isComment then
      match body with
      | none => 0
      | some _ => 1 + countRenderedList replies
    else 0

/-- Number of comments rendered for a list of nodes. -/
def countRenderedList : RCommentList → Nat
  | .nil => 0
  | .cons c cs => countRendered c + countRenderedList cs
end

/-- Post fields consumed by the success path of `fetch_post_details`.  The
selftext option is none when the field is absent or empty (falsy in the
source); the time string is the `strftime` rendering of `created_utc`. -/
structure PostDetail where
  title : Chars
  author : Chars
  timeStr : Chars
  selftext : Option Chars
  url : Option Chars
  permalink : Chars

/-- Model of the markdown document built by `fetch_post_details`: title
heading, posted-by line, optional selftext, optional external link (omitted
when the url equals the permalink), separator, comments heading and the
rendered comment tree. -/
def renderPostDetails (p : PostDetail) (comments : RCommentList) : Chars :=
  "# ".toList ++ p.title ++ "\n\n".toList ++
    "**Posted by u/".toList ++ p.author ++ " on ".toList ++ p.timeStr ++
    "**\n\n".toList ++
    (match p.selftext with
     | none => []
     | some st => st ++ "\n\n".toList) ++
    (match p.url with
     | none => []
     | some u =>
       if u ≠ "https://www.reddit.com".toList ++ p.permalink then
         "[Link](".toList ++ u ++ ")\n\n".toList
       else []) ++
    "---\n\n".toList ++ "## Comments\n\n".toList ++
    renderCommentList 0 comments

/-- Model of `re.match` with the title pattern: the content must start with
the heading literal; the lazy group runs to the first newline, which must
exist. -/
def matchTitle (cs : Chars) : Option Chars :=
  match cs with
  | '#' :: ' ' :: rest =>
    if '\n' ∈ rest then some (rest.takeWhile (fun c => decide (c ≠ '\n')))
    else none
  | _ => none

/-- Character class of one position of the timestamp pattern: separators at
the fixed offsets, digits elsewhere. -/
def tsClass (i : Nat) (c : Char) : Bool :=
  if i = 4 || i = 7 then c = '-'
  else if i = 10 then c = ' '
  else if i = 13 || i = 16 then c = ':'
  else c.isDigit

/-- Test whether the 19-character timestamp pattern matches at the start. -/
def tsShapeAt (cs : Chars) : Bool :=
  decide (19 ≤ cs.length) &&
    (List.range 19).all (fun i => tsClass i (cs.getD i ' '))

/-- Match of the timestamp pattern (the literal "on " and the 19-character
date-time) at the current position, returning the captured date-time. -/
def tsAt (cs : Chars) : Option Chars :=
  if "on ".toList.isPrefixOf cs && tsShapeAt (cs.drop 3) then
    some ((cs.drop 3).take 19)
  else none

/-- Model of `re.search` with the timestamp pattern: the leftmost match. -/
def findTs : Chars → Option Chars
  | [] => none
  | c :: cs =>
    match tsAt (c :: cs) with
    | some t => some t
    | none => findTs cs

/-- Test whether the attribution tail pattern, the closing bold marker, the
literal " on " and four digits, matches at the current position. -/
def attrCloseAt (cs : Chars) : Bool :=
  match cs with
  | '*' :: '*' :: ' ' :: 'o' :: 'n' :: ' ' :: d1 :: d2 :: d3 :: d4 :: _ =>
    d1.isDigit && d2.isDigit && d3.isDigit && d4.isDigit
  | _ => false

/-- Walk of the lazy group of the attribution pattern: the number of
characters from the group start to the end of the shortest match, or none
when a newline or the end of input intervenes. -/
def attrScan : Chars → Option Nat
  | [] => none
  | c :: cs =>
    if attrCloseAt (c :: cs) then some 10
    else if c = '\n' then none
    else (attrScan cs).map (· + 1)

/-- Match of the attribution pattern at the current position, returning the
total match length. -/
def attrMatchAt (cs : Chars) : Option Nat :=
  match cs with
  | '*' :: '*' :: 'u' :: '/' :: rest => (attrScan rest).map (· + 4)
  | _ => none

/-- Count loop of `re.findall` with the attribution pattern: scan start
positions from the left, counting non-overlapping matches.  The structural
fuel bounds the number of scan steps; every step consumes at least one
character, so the fuel passed by `countAttr` is never exhausted. -/
def countAttrGo : Nat → Chars → Nat
  | _, [] => 0
  | 0, _ :: _ => 0
  | fuel + 1, c :: cs =>
    match attrMatchAt (c :: cs) with
    | some k => 1 + countAttrGo fuel ((c :: cs).drop k)
    | none => countAttrGo fuel cs

/-- Model of `len(re.findall(...))` with the attribution pattern. -/
def countAttr (cs : Chars) : Nat := countAttrGo cs.length cs

/-- Number of days of a month, with the Gregorian leap rule, as validated
by `datetime.strptime`. -/
def daysInMonth (y m : Nat) : Nat :=
  if m = 2 then (if (y % 4 = 0 && decide (y % 100 ≠ 0)) || y % 400 = 0 then 29 else 28)
  else if m = 4 || m = 6 || m = 9 || m = 11 then 30 else 31

/-- Validity of a 19-character date-time string under
`datetime.strptime("%Y-%m-%d %H:%M:%S")`: year at least 1 (at most 9999 by
the four-digit shape), month 1..12, day within the month, hour, minute and
second in range. -/
def validDateTime (ts : Chars) : Bool :=
  let y := digitsToNat (ts.take 4)
  let mo := digitsToNat ((ts.drop 5).take 2)
  let d := digitsToNat ((ts.drop 8).take 2)
  let h := digitsToNat ((ts.drop 11).take 2)
  let mi := digitsToNat ((ts.drop 14).take 2)
  let se := digitsToNat ((ts.drop 17).take 2)
  decide (1 ≤ y) && decide (1 ≤ mo) && decide (mo ≤ 12) && decide (1 ≤ d) &&
    decide (d ≤ daysInMonth y mo) && decide (h ≤ 23) && decide (mi ≤ 59) &&
    decide (se ≤ 59)

/-- Extracted post fields of `LinkImporter.extract_post_info_from_content`.
The parsed `created_utc` is represented by the matched, validated date-time
string. -/
structure PostInfo where
  title : Chars
  url : Chars
  timeStr : Chars
  num_comments : Nat
  deriving Repr, DecidableEq

/-- Model of `LinkImporter.extract_post_info_from_content`: the title from
the leading heading match, the optional link target, the first timestamp
occurrence (failing, like the caught `strptime` `ValueError`, when the
matched date-time is not a valid date), and the count of attribution
matches. -/
def extract_post_info_from_content (content : Chars) : Option PostInfo :=
  match matchTitle content with
  | none => none
  | some title =>
    let url := match searchTag "[Link](".toList ")".toList content with
      | some u => u
      | none => []
    match findTs content with
    | none => none
    | some ts =>
      if validDateTime ts then some ⟨title, url, ts, countAttr content⟩ else none

/-!
## Well-formedness side conditions for the detail round trip
-/

/-- Star-free text: free of the bold marker character, so it cannot start
or close an attribution match. -/
def starFree (s : Chars) : Bool := s.all (fun c => decide (c ≠ '*'))

/-- Text free of the bold marker and of newlines, as author names, titles
and formatted timestamps are in well-formed documents. -/
def textOk (s : Chars) : Bool :=
  s.all (fun c => decide (c ≠ '*') && decide (c ≠ '\n'))

/-- Test whether the first four characters exist and are digits. -/
def digits4 : Chars → Bool
  | a :: b :: c :: d :: _ => a.isDigit && b.isDigit && c.isDigit && d.isDigit
  | _ => false

/-- Well-formed formatted timestamp: 19 characters, starting with four
digits, free of stars and newlines, as every `strftime("%Y-%m-%d %H:%M:%S")`
result is. -/
def wfTimeStr (ts : Chars) : Bool :=
  digits4 ts && decide (ts.length = 19) && textOk ts

mutual
/-- Well-formed comment node: when it renders, its author is star- and
newline-free, its body star-free, its timestamp well formed, and its
replies well formed. -/
def wfComment : RComment → Bool
  | .node isComment author body ts replies =>
    if isComment then
      match body with
      | none => true
      | some b => textOk author && starFree b && wfTimeStr ts && wfCommentList replies
    else true

/-- Well-formedness of a list of comment nodes. -/
def wfCommentList : RCommentList → Bool
  | .nil => true
  | .cons c cs => wfComment c && wfCommentList cs
end

/-!
## Counting attribution matches over the rendered document
-/

theorem attrMatchAt_pos {cs : Chars} {k : Nat} (h : attrMatchAt cs = some k) :
    4 ≤ k := by
  unfold attrMatchAt at h
  split at h
  · rcases Option.map_eq_some'.mp h with ⟨j, -, hj⟩
    omega
  · exact absurd h (by simp)

theorem countAttrGo_congr {cs : Chars} {f1 f2 : Nat} (h1 : cs.length ≤ f1)
    (h2 : cs.length ≤ f2) : countAttrGo f1 cs = countAttrGo f2 cs := by
  induction f1 using Nat.strong_induction_on generalizing cs f2 with
  | _ f1 ih =>
    cases cs with
    | nil =>
      cases f1 <;> cases f2 <;> rfl
    | cons c cs' =>
      simp only [List.length_cons] at h1 h2
      cases f1 with
      | zero => omega
      | succ f1' =>
        cases f2 with
        | zero => omega
        | succ f2' =>
          show (match attrMatchAt (c :: cs') with
            | some k => 1 + countAttrGo f1' ((c :: cs').drop k)
            | none => countAttrGo f1' cs') =
            (match attrMatchAt (c :: cs') with
            | some k => 1 + countAttrGo f2' ((c :: cs').drop k)
            | none => countAttrGo f2' cs')
          cases hm : attrMatchAt (c :: cs') with
          | some k =>
            have hk := attrMatchAt_pos hm
            have hd : ((c :: cs').drop k).length ≤ f1' := by
              simp only [List.length_drop, List.length_cons]
              omega
            have hd2 : ((c :: cs').drop k).length ≤ f2' := by
              simp only [List.length_drop, List.length_cons]
              omega
            exact congrArg (1 + ·) (ih f1' (by omega) hd hd2)
          | none => exact ih f1' (by omega) (by omega) (by omega)

theorem countAttr_cons_none {c : Char} {cs : Chars}
    (h : attrMatchAt (c :: cs) = none) : countAttr (c :: cs) = countAttr cs := by
  show countAttrGo (cs.length + 1) (c :: cs) = countAttr cs
  show (match attrMatchAt (c :: cs) with
    | some k => 1 + countAttrGo cs.length ((c :: cs).drop k)
    | none => countAttrGo cs.length cs) = countAttr cs
  rw [h]
  rfl

theorem countAttr_cons_some {c : Char} {cs : Chars} {k : Nat}
    (h : attrMatchAt (c :: cs) = some k) :
    countAttr (c :: cs) = 1 + countAttr ((c :: cs).drop k) := by
  have hk := attrMatchAt_pos h
  show countAttrGo (cs.length + 1) (c :: cs) = _
  show (match attrMatchAt (c :: cs) with
    | some k => 1 + countAttrGo cs.length ((c :: cs).drop k)
    | none => countAttrGo cs.length cs) = _
  rw [h]
  exact congrArg (1 + ·)
    (countAttrGo_congr (by simp only [List.length_drop, List.length_cons]; omega)
      (le_refl _))

theorem attrMatchAt_nonstar {c : Char} {cs : Chars} (h : c ≠ '*') :
    attrMatchAt (c :: cs) = none := by
  unfold attrMatchAt
  split
  · rename_i heq
    injection heq with h1 _
    exact absurd h1 h
  · rfl

theorem countAttr_cons_nonstar {c : Char} {cs : Chars} (h : c ≠ '*') :
    countAttr (c :: cs) = countAttr cs :=
  countAttr_cons_none (attrMatchAt_nonstar h)

theorem countAttr_append_nonstar (xs ys : Chars) (h : ∀ c ∈ xs, c ≠ '*') :
    countAttr (xs ++ ys) = countAttr ys := by
  induction xs with
  | nil => rfl
  | cons a xs ih =>
    rw [List.cons_append, countAttr_cons_nonstar (h a (by simp))]
    exact ih (fun c hc => h c (by simp [hc]))

theorem attrMatchAt_starstar {c : Char} {cs : Chars} (h : c ≠ 'u') :
    attrMatchAt ('*' :: '*' :: c :: cs) = none := by
  unfold attrMatchAt
  split
  · rename_i heq
    injection heq with h1 heq
    injection heq with h2 heq
    injection heq with h3 _
    exact absurd h3 h
  · rfl

theorem attrMatchAt_star_nonstar {c : Char} {cs : Chars} (h : c ≠ '*') :
    attrMatchAt ('*' :: c :: cs) = none := by
  unfold attrMatchAt
  split
  · rename_i heq
    injection heq with h1 heq
    injection heq with h2 _
    exact absurd h2 h
  · rfl

theorem countAttr_starstar {c : Char} {cs : Chars} (hu : c ≠ 'u') (hs : c ≠ '*') :
    countAttr ('*' :: '*' :: c :: cs) = countAttr (c :: cs) := by
  rw [countAttr_cons_none (attrMatchAt_starstar hu),
    countAttr_cons_none (attrMatchAt_star_nonstar hs)]

theorem attrCloseAt_nonstar {c : Char} {cs : Chars} (h : c ≠ '*') :
    attrCloseAt (c :: cs) = false := by
  unfold attrCloseAt
  split
  · rename_i heq
    injection heq with h1 _
    exact absurd h1 h
  · rfl

theorem textOk_mem {s : Chars} {c : Char} (h : textOk s = true) (hc : c ∈ s) :
    c ≠ '*' ∧ c ≠ '\n' := by
  have := List.all_eq_true.mp h c hc
  simp only [Bool.and_eq_true, decide_eq_true_eq] at this
  exact this

theorem starFree_mem {s : Chars} {c : Char} (h : starFree s = true) (hc : c ∈ s) :
    c ≠ '*' := by
  have := List.all_eq_true.mp h c hc
  simpa using this

theorem attrScan_append (author tail : Chars) (hA : textOk author = true)
    (hcl : attrCloseAt tail = true) :
    attrScan (author ++ tail) = some (author.length + 10) := by
  induction author with
  | nil =>
    cases tail with
    | nil => simp [attrCloseAt] at hcl
    | cons c cs =>
      show attrScan (c :: cs) = some 10
      unfold attrScan
      rw [if_pos hcl]
  | cons a au ih =>
    have ha := textOk_mem hA (by simp : a ∈ a :: au)
    have hA' : textOk au = true := by
      simp only [textOk, List.all_cons, Bool.and_eq_true] at hA
      exact hA.2
    rw [List.cons_append]
    show attrScan (a :: (au ++ tail)) = some ((a :: au).length + 10)
    unfold attrScan
    rw [attrCloseAt_nonstar ha.1]
    rw [if_neg (by simp), if_neg ha.2, ih hA']
    simp only [Option.map_some', List.length_cons]

theorem attrCloseAt_close (ts tail : Chars) (hd4 : digits4 ts = true) :
    attrCloseAt ("** on ".toList ++ (ts ++ tail)) = true := by
  rcases ts with - | ⟨a, - | ⟨b, - | ⟨c, - | ⟨d, ts'⟩⟩⟩⟩
  · simp [digits4] at hd4
  · simp [digits4] at hd4
  · simp [digits4] at hd4
  · simp [digits4] at hd4
  · show attrCloseAt ('*' :: '*' :: ' ' :: 'o' :: 'n' :: ' ' :: a :: b :: c :: d ::
      (ts' ++ tail)) = true
    unfold attrCloseAt
    simpa [digits4] using hd4

theorem attrMatchAt_attr (author ts tail : Chars) (hA : textOk author = true)
    (hd4 : digits4 ts = true) :
    attrMatchAt ("**u/".toList ++ (author ++ ("** on ".toList ++ (ts ++ tail)))) =
      some (author.length + 14) := by
  show Option.map (fun x => x + 4)
    (attrScan (author ++ ("** on ".toList ++ (ts ++ tail)))) =
    some (author.length + 14)
  rw [attrScan_append author ("** on ".toList ++ (ts ++ tail)) hA
    (attrCloseAt_close ts tail hd4)]
  simp

theorem countAttr_eq_some {cs : Chars} {k : Nat} (h : attrMatchAt cs = some k) :
    countAttr cs = 1 + countAttr (cs.drop k) := by
  cases cs with
  | nil =>
    rw [show attrMatchAt ([] : Chars) = none from rfl] at h
    exact absurd h (by simp)
  | cons c cs' => exact countAttr_cons_some h

theorem drop_attr (author ts tail : Chars) :
    ("**u/".toList ++ (author ++ ("** on ".toList ++ (ts ++ tail)))).drop
      (author.length + 14) = (ts ++ tail).drop 4 := by
  have e : "**u/".toList ++ (author ++ ("** on ".toList ++ (ts ++ tail))) =
      (("**u/".toList ++ author) ++ "** on ".toList) ++ (ts ++ tail) := by
    simp [List.append_assoc]
  have h2 := @List.drop_append Char (("**u/".toList ++ author) ++ "** on ".toList)
    (ts ++ tail) 4
  have h3 : (("**u/".toList ++ author) ++ "** on ".toList).length + 4 =
      author.length + 14 := by
    simp
  rw [e, ← h3, h2]

theorem countAttr_commentChunk (d : Nat) (author b ts tail : Chars)
    (hA : textOk author = true) (hts : wfTimeStr ts = true)
    (hB : starFree b = true) :
    countAttr (indentOf d ++ ("**u/".toList ++ (author ++ ("** on ".toList ++
      (ts ++ ("\n\n".toList ++ (indentOf d ++ (b ++ ("\n\n".toList ++ tail))))))))) =
      1 + countAttr tail := by
  obtain ⟨hd4, hlen, hok⟩ : digits4 ts = true ∧ ts.length = 19 ∧ textOk ts = true := by
    simpa [wfTimeStr, Bool.and_assoc, Bool.and_eq_true] using hts
  rw [countAttr_append_nonstar (indentOf d) _
    (fun c hc => by
      have := List.eq_of_mem_replicate hc
      subst this
      decide)]
  rw [countAttr_eq_some (attrMatchAt_attr author ts
    ("\n\n".toList ++ (indentOf d ++ (b ++ ("\n\n".toList ++ tail)))) hA hd4)]
  rw [drop_attr author ts _]
  rw [List.drop_append_of_le_length (by omega)]
  rw [countAttr_append_nonstar (ts.drop 4) _
    (fun c hc => (textOk_mem hok (List.mem_of_mem_drop hc)).1)]
  rw [countAttr_append_nonstar "\n\n".toList _ (by decide)]
  rw [countAttr_append_nonstar (indentOf d) _
    (fun c hc => by
      have := List.eq_of_mem_replicate hc
      subst this
      decide)]
  rw [countAttr_append_nonstar b _ (fun c hc => starFree_mem hB hc)]
  rw [countAttr_append_nonstar "\n\n".toList _ (by decide)]

mutual
/-- Counting attribution matches over one rendered comment followed by any
well-formed continuation: one match per rendered comment. -/
theorem countAttr_renderComment (d : Nat) (c : RComment) (rest : Chars)
    (hwf : wfComment c = true) :
    countAttr (renderComment d c ++ rest) = countRendered c + countAttr rest := by
  cases c with
  | node isC author body ts replies =>
    cases isC with
    | false => simp [renderComment, countRendered]
    | true =>
      cases body with
      | none => simp [renderComment, countRendered]
      | some b =>
        have hwf' : textOk author = true ∧ starFree b = true ∧
            wfTimeStr ts = true ∧ wfCommentList replies = true := by
          simpa [wfComment, Bool.and_assoc, Bool.and_eq_true] using hwf
        show countAttr ((indentOf d ++ "**u/".toList ++ author ++ "** on ".toList ++
          ts ++ "\n\n".toList ++ indentOf d ++ b ++ "\n\n".toList ++
          renderCommentList (d + 1) replies) ++ rest) =
          (1 + countRenderedList replies) + countAttr rest
        simp only [List.append_assoc]
        rw [countAttr_commentChunk d author b ts
          (renderCommentList (d + 1) replies ++ rest) hwf'.1 hwf'.2.2.1 hwf'.2.1]
        rw [countAttr_renderCommentList (d + 1) replies rest hwf'.2.2.2]
        omega

/-- Counting attribution matches over a rendered comment list followed by
any well-formed continuation. -/
theorem countAttr_renderCommentList (d : Nat) (l : RCommentList) (rest : Chars)
    (hwf : wfCommentList l = true) :
    countAttr (renderCommentList d l ++ rest) =
      countRenderedList l + countAttr rest := by
  cases l with
  | nil => simp [renderCommentList, countRenderedList]
  | cons c cs =>
    have h1 : wfComment c = true ∧ wfCommentList cs = true := by
      simpa [wfCommentList, Bool.and_eq_true] using hwf
    show countAttr ((renderComment d c ++ renderCommentList d cs) ++ rest) =
      (countRendered c + countRenderedList cs) + countAttr rest
    rw [List.append_assoc]
    rw [countAttr_renderComment d c (renderCommentList d cs ++ rest) h1.1]
    rw [countAttr_renderCommentList d cs rest h1.2]
    omega
end

theorem countAttr_postedBy (author ts tail : Chars) (hA : textOk author = true)
    (hts : wfTimeStr ts = true) :
    countAttr ("**Posted by u/".toList ++ (author ++ (" on ".toList ++
      (ts ++ ("**\n\n".toList ++ tail))))) = countAttr tail := by
  obtain ⟨hd4, hlen, hok⟩ : digits4 ts = true ∧ ts.length = 19 ∧ textOk ts = true := by
    simpa [wfTimeStr, Bool.and_assoc, Bool.and_eq_true] using hts
  show countAttr ('*' :: '*' :: 'P' :: ("osted by u/".toList ++ (author ++
    (" on ".toList ++ (ts ++ ("**\n\n".toList ++ tail)))))) = countAttr tail
  rw [countAttr_starstar (by decide) (by decide)]
  rw [countAttr_cons_nonstar (by decide)]
  rw [countAttr_append_nonstar "osted by u/".toList _ (by decide)]
  rw [countAttr_append_nonstar author _ (fun c hc => (textOk_mem hA hc).1)]
  rw [countAttr_append_nonstar " on ".toList _ (by decide)]
  rw [countAttr_append_nonstar ts _ (fun c hc => (textOk_mem hok hc).1)]
  show countAttr ('*' :: '*' :: '\n' :: '\n' :: tail) = countAttr tail
  rw [countAttr_starstar (by decide) (by decide)]
  rw [countAttr_cons_nonstar (by decide)]
  rw [countAttr_cons_nonstar (by decide)]

/-- Counting attribution matches over the whole rendered document: exactly
the number of rendered comments. -/
theorem countAttr_renderPostDetails (p : PostDetail) (comments : RCommentList)
    (hT : textOk p.title = true) (hA : textOk p.author = true)
    (hts : wfTimeStr p.timeStr = true)
    (hS : ∀ st, p.selftext = some st → starFree st = true)
    (hU : ∀ u, p.url = some u → starFree u = true)
    (hwf : wfCommentList comments = true) :
    countAttr (renderPostDetails p comments) = countRenderedList comments := by
  obtain ⟨title, author, ts, selftext, url, permalink⟩ := p
  simp only at hT hA hts hS hU
  have hS' : ∀ c ∈ (match selftext with
      | none => ([] : Chars)
      | some st => st ++ "\n\n".toList), c ≠ '*' := by
    cases selftext with
    | none => simp
    | some st =>
      intro c hc
      simp only at hc
      rcases List.mem_append.mp hc with hc | hc
      · exact starFree_mem (hS st rfl) hc
      · fin_cases hc <;> decide
  have hU' : ∀ c ∈ (match url with
      | none => ([] : Chars)
      | some u =>
        if u ≠ "https://www.reddit.com".toList ++ permalink then
          "[Link](".toList ++ (u ++ ")\n\n".toList)
        else []), c ≠ '*' := by
    cases url with
    | none => simp
    | some u =>
      intro c hc
      simp only at hc
      split at hc
      · rcases List.mem_append.mp hc with hc | hc
        · fin_cases hc <;> decide
        · rcases List.mem_append.mp hc with hc | hc
          · exact starFree_mem (hU u rfl) hc
          · fin_cases hc <;> decide
      · simp at hc
  unfold renderPostDetails
  simp only [List.append_assoc]
  rw [countAttr_append_nonstar "# ".toList _ (by decide)]
  rw [countAttr_append_nonstar title _ (fun c hc => (textOk_mem hT hc).1)]
  rw [countAttr_append_nonstar "\n\n".toList _ (by decide)]
  rw [countAttr_postedBy author ts _ hA hts]
  rw [countAttr_append_nonstar _ _ hS']
  rw [countAttr_append_nonstar _ _ hU']
  rw [countAttr_append_nonstar "---\n\n".toList _ (by decide)]
  rw [countAttr_append_nonstar "## Comments\n\n".toList _ (by decide)]
  rw [← List.append_nil (renderCommentList 0 comments)]
  rw [countAttr_renderCommentList 0 comments [] hwf]
  rfl

/-!
## Locating the first timestamp and the title in the rendered document
-/

theorem getD_char_append (l m : Chars) (i : Nat) (d : Char) (h : i < l.length) :
    (l ++ m).getD i d = l.getD i d := by
  simp [List.getD, List.getElem?_append, h]

theorem all_congr_mem {α : Type} (l : List α) (f g : α → Bool)
    (h : ∀ x ∈ l, f x = g x) : l.all f = l.all g := by
  induction l with
  | nil => rfl
  | cons a l ih =>
    simp only [List.all_cons, h a (by simp),
      ih (fun x hx => h x (by simp [hx]))]

theorem tsShapeAt_append (l m : Chars) (h : 19 ≤ l.length) :
    tsShapeAt (l ++ m) = tsShapeAt l := by
  unfold tsShapeAt
  have e1 : decide (19 ≤ (l ++ m).length) = true :=
    decide_eq_true (by simp only [List.length_append]; omega)
  have e2 : decide (19 ≤ l.length) = true := decide_eq_true h
  rw [e1, e2]
  have e3 : (List.range 19).all (fun i => tsClass i ((l ++ m).getD i ' ')) =
      (List.range 19).all (fun i => tsClass i (l.getD i ' ')) := by
    apply all_congr_mem
    intro i hi
    have : i < l.length := by
      have := List.mem_range.mp hi
      omega
    rw [getD_char_append l m i ' ' this]
  rw [e3]

theorem tsAt_append_long {cs : Chars} (ys : Chars) (h : 22 ≤ cs.length) :
    tsAt (cs ++ ys) = tsAt cs := by
  unfold tsAt
  have hdrop : (cs ++ ys).drop 3 = cs.drop 3 ++ ys :=
    List.drop_append_of_le_length (by omega)
  have hdlen : 19 ≤ (cs.drop 3).length := by
    simp only [List.length_drop]
    omega
  have h3len : ("on ".toList).length = 3 := by decide
  have hpre : "on ".toList.isPrefixOf (cs ++ ys) = "on ".toList.isPrefixOf cs := by
    cases hp : "on ".toList.isPrefixOf cs with
    | true =>
      have h1 : "on ".toList <+: cs := List.isPrefixOf_iff_prefix.mp hp
      exact List.isPrefixOf_iff_prefix.mpr (h1.trans (List.prefix_append cs ys))
    | false =>
      by_contra hc
      have h1 : "on ".toList.isPrefixOf (cs ++ ys) = true := by
        cases hq : "on ".toList.isPrefixOf (cs ++ ys) with
        | true => rfl
        | false => rw [hq] at hc; exact absurd rfl hc
      have h2 : "on ".toList <+: cs ++ ys := List.isPrefixOf_iff_prefix.mp h1
      have h3 : "on ".toList = (cs ++ ys).take ("on ".toList).length :=
        List.prefix_iff_eq_take.mp h2
      rw [List.take_append_of_le_length (by rw [h3len]; omega)] at h3
      have h4 : "on ".toList <+: cs := by
        rw [h3]
        exact List.take_prefix _ _
      rw [List.isPrefixOf_iff_prefix.mpr h4] at hp
      exact absurd hp (by simp)
  rw [hdrop, hpre, tsShapeAt_append _ _ hdlen,
    List.take_append_of_le_length hdlen]

theorem tsAt_some_length {cs t : Chars} (h : tsAt cs = some t) :
    22 ≤ cs.length := by
  unfold tsAt at h
  split at h
  case isTrue hc =>
    have hc2 : "on ".toList.isPrefixOf cs = true ∧ tsShapeAt (cs.drop 3) = true := by
      simpa using hc
    have h4 : 19 ≤ (cs.drop 3).length := by
      have h5 : 19 ≤ (cs.drop 3).length ∧
          ∀ i ∈ List.range 19, tsClass i ((cs.drop 3).getD i ' ') = true := by
        simpa [tsShapeAt] using hc2.2
      exact h5.1
    simp only [List.length_drop] at h4
    omega
  case isFalse => exact absurd h (by simp)

theorem findTs_some_length {cs t : Chars} (h : findTs cs = some t) :
    22 ≤ cs.length := by
  induction cs with
  | nil => simp [findTs] at h
  | cons c cs ih =>
    rw [show findTs (c :: cs) = (match tsAt (c :: cs) with
      | some t => some t
      | none => findTs cs) from rfl] at h
    cases hts0 : tsAt (c :: cs) with
    | some t0 => exact tsAt_some_length hts0
    | none =>
      rw [hts0] at h
      have := ih h
      simp only [List.length_cons]
      omega

theorem findTs_append {xs : Chars} (ys : Chars) {t : Chars}
    (h : findTs xs = some t) : findTs (xs ++ ys) = some t := by
  induction xs with
  | nil => simp [findTs] at h
  | cons c cs ih =>
    rw [show findTs (c :: cs) = (match tsAt (c :: cs) with
      | some t => some t
      | none => findTs cs) from rfl] at h
    show (match tsAt (c :: (cs ++ ys)) with
      | some t => some t
      | none => findTs (cs ++ ys)) = some t
    have e : (c :: cs) ++ ys = c :: (cs ++ ys) := rfl
    cases hts0 : tsAt (c :: cs) with
    | some t0 =>
      rw [hts0] at h
      have hlen := tsAt_some_length hts0
      have h2 : tsAt (c :: (cs ++ ys)) = some t0 := by
        rw [← e, tsAt_append_long ys hlen, hts0]
      rw [h2]
      exact h
    | none =>
      rw [hts0] at h
      have hlen := findTs_some_length h
      have h2 : tsAt (c :: (cs ++ ys)) = none := by
        rw [← e, tsAt_append_long ys (by simp only [List.length_cons]; omega), hts0]
      rw [h2]
      exact ih h

theorem takeWhile_append_stop (p : Char → Bool) (xs : Chars) (c : Char)
    (ys : Chars) (hall : ∀ a ∈ xs, p a = true) (hc : p c = false) :
    (xs ++ c :: ys).takeWhile p = xs := by
  induction xs with
  | nil =>
    show (c :: ys).takeWhile p = []
    rw [List.takeWhile_cons, hc]
    simp
  | cons a xs ih =>
    rw [List.cons_append, List.takeWhile_cons, hall a (by simp)]
    simp only [if_true]
    rw [ih (fun x hx => hall x (by simp [hx]))]

theorem matchTitle_render (title REST : Chars) (hT : textOk title = true) :
    matchTitle ("# ".toList ++ (title ++ ("\n\n".toList ++ REST))) = some title := by
  show (if '\n' ∈ (title ++ ('\n' :: '\n' :: REST)) then
    some ((title ++ ('\n' :: '\n' :: REST)).takeWhile (fun c => decide (c ≠ '\n')))
    else none) = some title
  rw [if_pos (List.mem_append.mpr (Or.inr (by simp)))]
  rw [takeWhile_append_stop _ title '\n' ('\n' :: REST)
    (fun a ha => by
      have := textOk_mem hT ha
      simp [this.2])
    (by decide)]

/-- Prefix of the rendered document through the posted-by timestamp: the
part of the document in which a well-formed post places the first
timestamp occurrence. -/
def headerOf (p : PostDetail) : Chars :=
  "# ".toList ++ (p.title ++ ("\n\n".toList ++ ("**Posted by u/".toList ++
    (p.author ++ (" on ".toList ++ p.timeStr)))))

theorem renderPostDetails_header (p : PostDetail) (comments : RCommentList) :
    renderPostDetails p comments = headerOf p ++ ("**\n\n".toList ++
      ((match p.selftext with
        | none => []
        | some st => st ++ "\n\n".toList) ++
        ((match p.url with
          | none => []
          | some u =>
            if u ≠ "https://www.reddit.com".toList ++ p.permalink then
              "[Link](".toList ++ (u ++ ")\n\n".toList)
            else []) ++
          ("---\n\n".toList ++ ("## Comments\n\n".toList ++
            renderCommentList 0 comments))))) := by
  unfold renderPostDetails headerOf
  simp only [List.append_assoc]

set_option maxHeartbeats 2000000 in
/-- Claim C6: for every markdown document produced by the detail renderer
from a well-formed post (title, author, selftext, link target and comment
fields free of the characters that would collide with the fixed extraction
patterns; a valid formatted timestamp; the first timestamp occurrence of
the header being the post timestamp), `extract_post_info_from_content`
succeeds and recovers exactly the title, exactly the timestamp, and a
comment count equal to the number of comment attribution lines rendered
(one per rendered comment). -/
theorem detail_roundtrip (p : PostDetail) (comments : RCommentList)
    (hT : textOk p.title = true) (hA : textOk p.author = true)
    (hts : wfTimeStr p.timeStr = true) (hvalid : validDateTime p.timeStr = true)
    (hS : ∀ st, p.selftext = some st → starFree st = true)
    (hU : ∀ u, p.url = some u → starFree u = true)
    (hwf : wfCommentList comments = true)
    (hFind : findTs (headerOf p) = some p.timeStr) :
    ∃ info, extract_post_info_from_content (renderPostDetails p comments) =
        some info ∧
      info.title = p.title ∧ info.timeStr = p.timeStr ∧
      info.num_comments = countRenderedList comments := by
  have htitle : matchTitle (renderPostDetails p comments) = some p.title := by
    have e1 : renderPostDetails p comments = "# ".toList ++ (p.title ++
        ("\n\n".toList ++ ("**Posted by u/".toList ++ (p.author ++
          (" on ".toList ++ (p.timeStr ++ ("**\n\n".toList ++
          ((match p.selftext with
            | none => []
            | some st => st ++ "\n\n".toList) ++
            ((match p.url with
              | none => []
              | some u =>
                if u ≠ "https://www.reddit.com".toList ++ p.permalink then
                  "[Link](".toList ++ (u ++ ")\n\n".toList)
                else []) ++
              ("---\n\n".toList ++ ("## Comments\n\n".toList ++
                renderCommentList 0 comments))))))))))) := by
      rw [renderPostDetails_header]
      simp only [headerOf, List.append_assoc]
    rw [e1]
    exact matchTitle_render p.title _ hT
  have htime : findTs (renderPostDetails p comments) = some p.timeStr := by
    rw [renderPostDetails_header]
    exact findTs_append _ hFind
  have hcount := countAttr_renderPostDetails p comments hT hA hts hS hU hwf
  cases hurl : searchTag "[Link](".toList ")".toList (renderPostDetails p comments)
    with
  | some u =>
    refine ⟨⟨p.title, u, p.timeStr, countAttr (renderPostDetails p comments)⟩,
      ?_, rfl, rfl, hcount⟩
    unfold extract_post_info_from_content
    simp only [htitle, htime, hurl, hvalid, if_true]
  | none =>
    refine ⟨⟨p.title, [], p.timeStr, countAttr (renderPostDetails p comments)⟩,
      ?_, rfl, rfl, hcount⟩
    unfold extract_post_info_from_content
    simp only [htitle, htime, hurl, hvalid, if_true]

/-- Concrete post used by the C6 witness. -/
def demoDetail : PostDetail :=
  { title := "Hello world".toList, author := "alice".toList,
    timeStr := "2024-03-05 12:30:45".toList,
    selftext := some "Body text".toList,
    url := some "https://example.com/x".toList,
    permalink := "/r/sub/comments/abc/t/".toList }

/-- Concrete comment tree used by the C6 witness: a comment with a nested
reply, a deleted comment and a non-comment entry; two attribution lines are
rendered. -/
def demoComments : RCommentList :=
  .cons (.node true "bob".toList (some "Nice post".toList)
      "2024-03-05 13:00:00".toList
      (.cons (.node true "carol".toList (some "A reply".toList)
        "2024-03-05 13:05:00".toList .nil) .nil))
    (.cons (.node true "dave".toList none "2024-03-05 14:00:00".toList .nil)
      (.cons (.node false "more".toList none [] .nil) .nil))

/-- Witness for C6 at a concrete input: the round trip recovers the title,
the timestamp and the two rendered attribution lines. -/
theorem detail_roundtrip_witness :
    ∃ info, extract_post_info_from_content
        (renderPostDetails demoDetail demoComments) = some info ∧
      info.title = demoDetail.title ∧ info.timeStr = demoDetail.timeStr ∧
      info.num_comments = countRenderedList demoComments :=
  detail_roundtrip demoDetail demoComments (by decide) (by decide) (by decide)
    (by decide)
    (fun st hst => by
      rw [show demoDetail.selftext = some "Body text".toList from rfl] at hst
      injection hst with h
      subst h
      decide)
    (fun u hu => by
      rw [show demoDetail.url = some "https://example.com/x".toList from rfl] at hu
      injection hu with h
      subst h
      decide)
    (by decide) (by decide)

/-!
## Fallible detail fetch over decoded JSON (`fetch_post_details`,
src/reddit_explorer/services/reddit_service.py): exception behaviour
-/

mutual
/-- Decoded JSON value, as returned by `response.json()`.  Numbers are
modelled as integers. -/
inductive Json : Type where
  | null : Json
  | bool (b : Bool) : Json
  | num (n : Int) : Json
  | str (s : Chars) : Json
  | arr (xs : JsonList) : Json
  | obj (fs : JsonFields) : Json

/-- List of JSON values, mutually defined with `Json`. -/
inductive JsonList : Type where
  | nil : JsonList
  | cons : Json → JsonList → JsonList

/-- Fields of a JSON object, mutually defined with `Json`. -/
inductive JsonFields : Type where
  | nil : JsonFields
  | cons : Chars → Json → JsonFields → JsonFields
end

/-- Python exceptions the detail-fetch body can raise. -/
inductive PyExn : Type where
  | keyError
  | indexError
  | typeError
  | attributeError
  | valueError
  deriving Repr, DecidableEq

/-- First field with the given name. -/
def findField : JsonFields → Chars → Option Json
  | .nil, _ => none
  | .cons k v tl, key => if k = key then some v else findField tl key

/-- Element of a JSON list at an index. -/
def jsonListGet : JsonList → Nat → Option Json
  | .nil, _ => none
  | .cons j _, 0 => some j
  | .cons _ tl, n + 1 => jsonListGet tl n

/-- Model of Python integer subscription `x[i]`: list indexing with
`IndexError` out of range, one-character strings from string indexing,
`KeyError` on a dict without that key, `TypeError` elsewhere. -/
def getIdx (j : Json) (i : Nat) : Except PyExn Json :=
  match j with
  | .arr xs =>
    match jsonListGet xs i with
    | some v => .ok v
    | none => .error .indexError
  | .str s => if i < s.length then .ok (.str [s.getD i ' ']) else .error .indexError
  | .obj _ => .error .keyError
  | _ => .error .typeError

/-- Model of Python string subscription `x["k"]`: object field lookup with
`KeyError` when missing, `TypeError` on non-dict values. -/
def getKey (j : Json) (k : Chars) : Except PyExn Json :=
  match j with
  | .obj fs =>
    match findField fs k with
    | some v => .ok v
    | none => .error .keyError
  | _ => .error .typeError

/-- Model of Python `x.get("k")`: the optional field of a dict,
`AttributeError` on non-dict values. -/
def dictGet (j : Json) (k : Chars) : Except PyExn (Option Json) :=
  match j with
  | .obj fs => .ok (findField fs k)
  | _ => .error .attributeError

/-- Python truthiness of a JSON value. -/
def truthy : Json → Bool
  | .null => false
  | .bool b => b
  | .num n => decide (n ≠ 0)
  | .str s => decide (s ≠ [])
  | .arr .nil => false
  | .arr _ => true
  | .obj .nil => false
  | .obj _ => true

/-- Test for a JSON object, the model of `isinstance(x, dict)`. -/
def isObj : Json → Bool
  | .obj _ => true
  | _ => false

/-- Model of `datetime.fromtimestamp(x)` argument handling: numbers (and
booleans, which Python treats as integers) convert, everything else raises
`TypeError`. -/
def asNumber : Json → Except PyExn Int
  | .num n => .ok n
  | .bool b => .ok (if b then 1 else 0)
  | _ => .error .typeError

/-- Equality of a JSON value with a Python string: true exactly for the
equal string value. -/
def jsonEqStr (j : Json) (s : Chars) : Bool :=
  match j with
  | .str t => decide (t = s)
  | _ => false

mutual
/-- Model of the f-string rendering `str(x)` of a JSON value.  Container
reprs follow the Python form; string escaping inside containers is not
modelled beyond the surrounding quotes. -/
def jsonStr : Json → Chars
  | .null => "None".toList
  | .bool true => "True".toList
  | .bool false => "False".toList
  | .num n => (toString n).toList
  | .str s => s
  | .arr xs => '[' :: (jsonListRepr xs ++ [']'])
  | .obj fs => Char.ofNat 123 :: (jsonFieldsRepr fs ++ [Char.ofNat 125])

/-- Model of `repr(x)` of a JSON value, as used for container elements. -/
def jsonRepr : Json → Chars
  | .str s => Char.ofNat 39 :: (s ++ [Char.ofNat 39])
  | .null => "None".toList
  | .bool true => "True".toList
  | .bool false => "False".toList
  | .num n => (toString n).toList
  | .arr xs => '[' :: (jsonListRepr xs ++ [']'])
  | .obj fs => Char.ofNat 123 :: (jsonFieldsRepr fs ++ [Char.ofNat 125])

/-- Comma-separated reprs of list elements. -/
def jsonListRepr : JsonList → Chars
  | .nil => []
  | .cons j .nil => jsonRepr j
  | .cons j tl => jsonRepr j ++ (", ".toList ++ jsonListRepr tl)

/-- Comma-separated reprs of object fields, keys in quoted repr form. -/
def jsonFieldsRepr : JsonFields → Chars
  | .nil => []
  | .cons k v .nil =>
    Char.ofNat 39 :: (k ++ [Char.ofNat 39]) ++ (": ".toList ++ jsonRepr v)
  | .cons k v tl =>
    Char.ofNat 39 :: (k ++ [Char.ofNat 39]) ++ (": ".toList ++ (jsonRepr v ++
      (", ".toList ++ jsonFieldsRepr tl)))
end

/-- Zero-padded two-digit decimal. -/
def pad2 (n : Nat) : Chars :=
  if n < 10 then '0' :: (toString n).toList else (toString n).toList

/-- Zero-padded four-digit decimal. -/
def pad4 (n : Nat) : Chars :=
  if n < 10 then '0' :: '0' :: '0' :: (toString n).toList
  else if n < 100 then '0' :: '0' :: (toString n).toList
  else if n < 1000 then '0' :: (toString n).toList
  else (toString n).toList

/-- Gregorian date of a day count relative to the epoch (Howard Hinnant
civil-from-days algorithm): (year, month, day). -/
def civilFromDays (z0 : Int) : Int × Int × Int :=
  let z := z0 + 719468
  let era := (if 0 ≤ z then z else z - 146096) / 146097
  let doe := z - era * 146097
  let yoe := (doe - doe / 1460 + doe / 36524 - doe / 146096) / 365
  let y := yoe + era * 400
  let doy := doe - (365 * yoe + yoe / 4 - yoe / 100)
  let mp := (5 * doy + 2) / 153
  let d := doy - (153 * mp + 2) / 5 + 1
  let m := mp + (if mp < 10 then 3 else -9)
  (y + (if m ≤ 2 then 1 else 0), m, d)

/-- Model of `datetime.fromtimestamp(ts).strftime("%Y-%m-%d %H:%M:%S")`,
with the timestamp interpreted in UTC (the local timezone is not
modelled); timestamps outside the `datetime` year range 1..9999 raise. -/
def formatTime (ts : Int) : Except PyExn Chars :=
  let days := Int.fdiv ts 86400
  let secs := (ts - days * 86400).toNat
  match civilFromDays days with
  | (y, m, d) =>
    if 1 ≤ y ∧ y ≤ 9999 then
      .ok (pad4 y.toNat ++ ('-' :: pad2 m.toNat) ++ ('-' :: pad2 d.toNat) ++
        (' ' :: pad2 (secs / 3600)) ++ (':' :: pad2 (secs % 3600 / 60)) ++
        (':' :: pad2 (secs % 60)))
    else .error .valueError

theorem findField_sizeOf {fs : JsonFields} {k : Chars} {v : Json}
    (h : findField fs k = some v) : sizeOf v < sizeOf fs :=
  match fs, h with
  | .cons k2 v2 tl, h => by
    unfold findField at h
    split at h
    · simp only [Option.some.injEq] at h
      subst h
      simp only [JsonFields.cons.sizeOf_spec]
      omega
    · have := findField_sizeOf h
      simp only [JsonFields.cons.sizeOf_spec]
      omega

theorem getKey_sizeOf {j : Json} {k : Chars} {v : Json}
    (h : getKey j k = .ok v) : sizeOf v < sizeOf j := by
  unfold getKey at h
  split at h
  case h_1 fs =>
    split at h
    case h_1 v2 hf =>
      simp only [Except.ok.injEq] at h
      subst h
      have := findField_sizeOf hf
      simp only [Json.obj.sizeOf_spec]
      omega
    case h_2 => exact absurd h (by simp)
  case h_2 => exact absurd h (by simp)

theorem dictGet_sizeOf {j : Json} {k : Chars} {v : Json}
    (h : dictGet j k = .ok (some v)) : sizeOf v < sizeOf j := by
  unfold dictGet at h
  split at h
  case h_1 fs =>
    simp only [Except.ok.injEq] at h
    have := findField_sizeOf h
    simp only [Json.obj.sizeOf_spec]
    omega
  case h_2 => exact absurd h (by simp)

mutual
/-- Model of `format_comment` over decoded JSON: the fallible field
accesses of the source in source order, producing the comment node that
`renderComment` renders (the source interleaves rendering with the
accesses; since an exception aborts the whole call, performing the same
accesses in the same order before rendering yields the same result). -/
def jsonToComment (j : Json) : Except PyExn RComment :=
  match dictGet j ("kind".toList) with
  | .error e => .error e
  | .ok kindOpt =>
    if (match kindOpt with
        | some v => jsonEqStr v ("t1".toList)
        | none => false) then
      match hData : getKey j ("data".toList) with
      | .error e => .error e
      | .ok data =>
        match dictGet data ("body".toList) with
        | .error e => .error e
        | .ok none => .ok (.node true [] none [] .nil)
        | .ok (some .null) => .ok (.node true [] none [] .nil)
        | .ok (some bodyv) =>
          let author : Chars :=
            match dictGet data ("author".toList) with
            | .ok (some v) => jsonStr v
            | _ => "[deleted]".toList
          match getKey data ("created_utc".toList) with
          | .error e => .error e
          | .ok cutc =>
            match asNumber cutc with
            | .error e => .error e
            | .ok n =>
              match formatTime n with
              | .error e => .error e
              | .ok tstr =>
                match hRep : dictGet data ("replies".toList) with
                | .error e => .error e
                | .ok none => .ok (.node true author (some (jsonStr bodyv)) tstr .nil)
                | .ok (some rv) =>
                  if truthy rv && isObj rv then
                    match hD2 : getKey rv ("data".toList) with
                    | .error e => .error e
                    | .ok d2 =>
                      match hCh : getKey d2 ("children".toList) with
                      | .error e => .error e
                      | .ok children =>
                        match jsonToChildren children with
                        | .error e => .error e
                        | .ok reps =>
                          .ok (.node true author (some (jsonStr bodyv)) tstr reps)
                  else .ok (.node true author (some (jsonStr bodyv)) tstr .nil)
    else .ok (.node false [] none [] .nil)
termination_by sizeOf j
decreasing_by
  have s1 := getKey_sizeOf hData
  have s2 := dictGet_sizeOf hRep
  have s3 := getKey_sizeOf hD2
  have s4 := getKey_sizeOf hCh
  omega

/-- Model of iterating a `children` value with `format_comment`: a JSON
list converts element-wise; iterating an empty string or empty dict runs
the loop zero times; iterating a nonempty string or dict feeds
`format_comment` a string, whose first `.get` raises `AttributeError`;
anything else is not iterable. -/
def jsonToChildren (children : Json) : Except PyExn RCommentList :=
  match children with
  | .arr xs => jsonToComments xs
  | .str s => if s.isEmpty then .ok .nil else .error .attributeError
  | .obj .nil => .ok .nil
  | .obj (.cons _ _ _) => .error .attributeError
  | _ => .error .typeError
termination_by sizeOf children
decreasing_by
  simp only [Json.arr.sizeOf_spec]
  omega

/-- Element-wise conversion of a list of comment JSON values. -/
def jsonToComments : JsonList → Except PyExn RCommentList
  | .nil => .ok .nil
  | .cons j tl =>
    match jsonToComment j with
    | .error e => .error e
    | .ok c =>
      match jsonToComments tl with
      | .error e => .error e
      | .ok cs => .ok (.cons c cs)
termination_by l => sizeOf l
decreasing_by
  all_goals simp only [JsonList.cons.sizeOf_spec]
  all_goals omega
end

/-- Model of the success path of `fetch_post_details` over the decoded
JSON response: the source field accesses and conversions in source order,
assembling the markdown document. -/
def fetchPostDetailsJson (data : Json) : Except PyExn Chars := do
  let e0 ← getIdx data 0
  let e1 ← getKey e0 ("data".toList)
  let ch ← getKey e1 ("children".toList)
  let e3 ← getIdx ch 0
  let post_data ← getKey e3 ("data".toList)
  let c0 ← getIdx data 1
  let c1 ← getKey c0 ("data".toList)
  let comments_data ← getKey c1 ("children".toList)
  let cutc ← getKey post_data ("created_utc".toList)
  let n ← asNumber cutc
  let time_str ← formatTime n
  let author : Chars :=
    match dictGet post_data ("author".toList) with
    | .ok (some v) => jsonStr v
    | _ => "[deleted]".toList
  let titlev ← getKey post_data ("title".toList)
  let stOpt ← dictGet post_data ("selftext".toList)
  let urlOpt ← dictGet post_data ("url".toList)
  let linkStr ← (match urlOpt with
    | none => pure []
    | some uv =>
      if truthy uv then do
        let permav ← getKey post_data ("permalink".toList)
        if ¬ jsonEqStr uv ("https://www.reddit.com".toList ++ jsonStr permav) then
          pure ("[Link](".toList ++ jsonStr uv ++ ")\n\n".toList)
        else pure []
      else pure [])
  let kids ← jsonToChildren comments_data
  pure ("# ".toList ++ jsonStr titlev ++ "\n\n".toList ++
    "**Posted by u/".toList ++ author ++ " on ".toList ++ time_str ++
    "**\n\n".toList ++
    (match stOpt with
     | some sv => if truthy sv then jsonStr sv ++ "\n\n".toList else []
     | none => []) ++
    linkStr ++ "---\n\n".toList ++ "## Comments\n\n".toList ++
    renderCommentList 0 kids)

/-- Outcome of the HTTP fetch and JSON decode in `fetch_post_details`: a
request-level failure (network error, bad HTTP status, or a JSON decode
failure, which the requests library reports as a `RequestException`
subclass) carrying its message, or a successfully decoded JSON value. -/
inductive FetchOutcome : Type where
  | requestError (msg : Chars)
  | jsonValue (v : Json)

/-- Model of `RedditService.fetch_post_details`: only `RequestException`
is caught and turned into the sentinel string; the body over a decoded
JSON value may raise. -/
def fetch_post_details (o : FetchOutcome) : Except PyExn Chars :=
  match o with
  | .requestError msg => .ok ("Error fetching post details: ".toList ++ msg)
  | .jsonValue v => fetchPostDetailsJson v

/-!
## Theorems for claim C8
-/

/-- Counterexample to C8 as stated: a successfully decoded but
unexpectedly-shaped JSON response (an empty array) makes
`fetch_post_details` raise an `IndexError` instead of returning a
sentinel-prefixed string. -/
theorem detail_sentinel_shape_counterexample :
    fetch_post_details (.jsonValue (Json.arr JsonList.nil)) =
      .error PyExn.indexError := by
  rfl

/-- Claim C8 (amended): every request-level failure (network error, bad
status, JSON decode failure — all reported as `RequestException`) makes
`fetch_post_details` return a string beginning with the sentinel
"Error fetching post details" instead of raising; a successfully decoded
response of unexpected shape instead raises. -/
theorem detail_sentinel_on_request_error :
    (∀ msg : Chars,
      fetch_post_details (.requestError msg) =
        .ok ("Error fetching post details: ".toList ++ msg) ∧
      errorSentinel.isPrefixOf ("Error fetching post details: ".toList ++ msg) =
        true) ∧
    fetch_post_details (.jsonValue (Json.arr JsonList.nil)) =
      .error PyExn.indexError :=
  ⟨fun msg => ⟨rfl, rfl⟩, rfl⟩

/-!
## Local store: saved posts, category counts and visibility
(src/reddit_explorer/ui/main_window.py, src/reddit_explorer/ui/widgets/post_widget.py,
src/reddit_explorer/data/database.py)
-/

/-- Model of a row of the `saved_posts` table (schema in
database.py `_create_schema`).  Timestamps are the formatted strings the
source stores. -/
structure SavedRow where
  reddit_id : Chars
  subreddit_id : Nat
  title : Chars
  url : Option Chars
  category : Chars
  is_read : Bool
  show_in_categories : Bool
  num_comments : Nat
  added_date : Chars
  content : Option Chars
  summary : Option Chars
  deriving Repr, DecidableEq

/-- Model of the store-facing state: the `saved_posts` rows in insertion
order, and the per-category post counts displayed in the tree widget. -/
structure Store where
  rows : List SavedRow
  displayed : Chars → Nat

/-- Count computed by the first `refresh_category_counts` query for one
category: the number of `saved_posts` rows with that category and
`show_in_categories = 1`. -/
def visCount (rows : List SavedRow) (c : Chars) : Nat :=
  (rows.filter (fun r => r.category = c && r.show_in_categories)).length

/-- Count computed by the second `refresh_category_counts` query: the
number of `saved_posts` rows with `show_in_categories = 1`, over all
categories. -/
def totalVisible (rows : List SavedRow) : Nat :=
  (rows.filter (fun r => r.show_in_categories)).length

/-- Model of `refresh_category_counts`: recompute every displayed category
count from the table, except that a tree item named "Most popular"
displays `min(200, total visible posts)` instead of its per-category
count. -/
def refresh_category_counts (s : Store) : Store :=
  { s with displayed := fun c =>
      if c = "Most popular".toList then min 200 (totalVisible s.rows)
      else visCount s.rows c }

/-- Model of `MainWindow.save_post`: insert a new row with category
"Uncategorized", `show_in_categories = 1` and `is_read = 1`, then refresh
the displayed counts; when a row with the same `reddit_id` exists the
INSERT raises `sqlite3.IntegrityError`, which is swallowed, so the whole
call leaves the state unchanged.  The resolved subreddit id, the optionally
downloaded content and the formatted creation time are passed in. -/
def save_post (s : Store) (p : RedditPost) (subreddit_id : Nat)
    (content : Option Chars) (createdTime : Chars) : Store :=
  if s.rows.any (fun r => r.reddit_id = p.id) then s
  else
    refresh_category_counts
      { s with
        rows := s.rows ++
          [{ reddit_id := p.id, subreddit_id := subreddit_id, title := p.title,
             url := p.url, category := "Uncategorized".toList, is_read := true,
             show_in_categories := true, num_comments := p.num_comments,
             added_date := createdTime, content := content, summary := none }] }

/-- Model of `MainWindow.unsave_post`: delete the rows with the given
`reddit_id`, then refresh the displayed counts. -/
def unsave_post (s : Store) (rid : Chars) : Store :=
  refresh_category_counts
    { s with rows := s.rows.filter (fun r => ¬ (r.reddit_id = rid)) }

/-- Model of the category-change operation of
`PostWidget._show_category_menu`: update the category of the rows with the
given `reddit_id`, then refresh the displayed counts. -/
def set_post_category (s : Store) (rid : Chars) (c : Chars) : Store :=
  refresh_category_counts
    { s with
      rows := s.rows.map (fun r =>
        if r.reddit_id = rid then { r with category := c } else r) }

/-- Model of `MainWindow.update_post_category_visibility` itself: update
the `show_in_categories` flag of the rows with the given `reddit_id`.  The
function only updates the table; it performs no refresh of the displayed
counts. -/
def update_post_category_visibility (s : Store) (rid : Chars) (visible : Bool) :
    Store :=
  { s with
    rows := s.rows.map (fun r =>
      if r.reddit_id = rid then { r with show_in_categories := visible } else r) }

/-- Model of the browser-checkbox visibility toggle
(`_handle_browser_category_changed`): update the flag, then refresh the
displayed counts (main_window.py line 665). -/
def browser_visibility_change (s : Store) (rid : Chars) (visible : Bool) :
    Store :=
  refresh_category_counts (update_post_category_visibility s rid visible)

/-- Model of the post-widget visibility toggle
(`PostWidget.on_category_checkbox_changed`): update the flag only; this
caller never refreshes the displayed counts. -/
def widget_visibility_change (s : Store) (rid : Chars) (visible : Bool) :
    Store :=
  update_post_category_visibility s rid visible

/-- One user-level store operation of the save, unsave, category-change,
visibility-toggle repertoire; the two visibility toggles in the user
interface are distinct operations because only the browser-checkbox path
refreshes the displayed counts. -/
inductive StoreOp where
  | save (p : RedditPost) (subreddit_id : Nat) (content : Option Chars)
      (createdTime : Chars)
  | unsave (rid : Chars)
  | setCategory (rid : Chars) (c : Chars)
  | setVisibilityBrowser (rid : Chars) (visible : Bool)
  | setVisibilityWidget (rid : Chars) (visible : Bool)

/-- Application of one store operation. -/
def applyOp (s : Store) : StoreOp → Store
  | .save p sid content t => save_post s p sid content t
  | .unsave rid => unsave_post s rid
  | .setCategory rid c => set_post_category s rid c
  | .setVisibilityBrowser rid b => browser_visibility_change s rid b
  | .setVisibilityWidget rid b => widget_visibility_change s rid b

/-- Application of a sequence of store operations. -/
def applyOps (s : Store) (ops : List StoreOp) : Store := ops.foldl applyOp s

/-- Operations whose handler path ends in a `refresh_category_counts`
call: all of them except the post-widget visibility toggle. -/
def opRefreshes : StoreOp → Bool
  | .setVisibilityWidget _ _ => false
  | _ => true

/-- Displayed counts agreeing with what `refresh_category_counts` would
show for the current table: the per-category visible count, except
`min(200, total visible)` for a tree item named "Most popular". -/
def countsFresh (s : Store) : Prop :=
  ∀ c, s.displayed c =
    (if c = "Most popular".toList then min 200 (totalVisible s.rows)
     else visCount s.rows c)

/-!
## Theorems for claims C3 and C9
-/

/-- Claim C3: saving a post whose `reddit_id` is already present in exactly
one `saved_posts` row leaves the table unchanged (the unique-constraint
violation is swallowed, not raised, and the existing row is not modified),
so exactly one row with that `reddit_id` remains. -/
theorem idempotent_save (s : Store) (p : RedditPost) (sid : Nat)
    (content : Option Chars) (t : Chars)
    (hex : s.rows.countP (fun r => r.reddit_id = p.id) = 1) :
    (save_post s p sid content t).rows = s.rows ∧
      (save_post s p sid content t).rows.countP
        (fun r => r.reddit_id = p.id) = 1 := by
  have hpos : 0 < s.rows.countP (fun r => r.reddit_id = p.id) := by omega
  obtain ⟨r, hmem, hr⟩ := List.countP_pos.mp hpos
  have hany : s.rows.any (fun r => r.reddit_id = p.id) = true :=
    List.any_eq_true.mpr ⟨r, hmem, hr⟩
  have e : save_post s p sid content t = s := by
    unfold save_post
    rw [if_pos hany]
  rw [e]
  exact ⟨rfl, hex⟩

/-- Concrete row used by the store witnesses. -/
def demoRow : SavedRow :=
  { reddit_id := "abc".toList, subreddit_id := 1, title := "T".toList,
    url := none, category := "Uncategorized".toList, is_read := true,
    show_in_categories := true, num_comments := 0, added_date := [],
    content := none, summary := none }

/-- Concrete store holding one saved row, with displayed counts as a
refresh leaves them. -/
def demoStore : Store :=
  refresh_category_counts { rows := [demoRow], displayed := fun _ => 0 }

/-- Concrete post with the same reddit id as the saved demo row. -/
def demoPost : RedditPost :=
  { id := "abc".toList, title := "T2".toList, url := none,
    subreddit := "sub".toList, created_utc := 0, num_comments := 3,
    selftext := [] }

/-- Witness for C3 at a concrete input: re-saving an already-saved post
leaves the single row unchanged. -/
theorem idempotent_save_witness :
    (save_post demoStore demoPost 1 none [] ).rows = demoStore.rows ∧
      (save_post demoStore demoPost 1 none []).rows.countP
        (fun r => r.reddit_id = demoPost.id) = 1 :=
  idempotent_save demoStore demoPost 1 none [] (by decide)

theorem applyOp_counts (s : Store) (op : StoreOp)
    (hop : opRefreshes op = true) (hinv : countsFresh s) :
    countsFresh (applyOp s op) := by
  cases op with
  | save p sid content t =>
    show countsFresh (save_post s p sid content t)
    unfold save_post
    split
    · exact hinv
    · intro c
      rfl
  | unsave rid => intro c; rfl
  | setCategory rid c0 => intro c; rfl
  | setVisibilityBrowser rid b => intro c; rfl
  | setVisibilityWidget rid b => simp [opRefreshes] at hop

theorem applyOps_counts (ops : List StoreOp) : ∀ (s : Store),
    (∀ op ∈ ops, opRefreshes op = true) → countsFresh s →
    countsFresh (applyOps s ops) := by
  induction ops with
  | nil => exact fun s _ hinv => hinv
  | cons op ops ih =>
    intro s hre hinv
    show countsFresh (applyOps (applyOp s op) ops)
    exact ih (applyOp s op) (fun o ho => hre o (List.mem_cons_of_mem op ho))
      (applyOp_counts s op (hre op (List.mem_cons_self op ops)) hinv)

/-- Counterexample to C9 as stated: the post-widget visibility toggle
calls `update_post_category_visibility` without any count refresh, so
hiding the only visible post leaves the displayed count of its category
stale; and a category literally named "Most popular" displays
`min(200, total visible posts)` instead of its own visible-row count even
directly after a refresh. -/
theorem visibility_count_consistency_counterexample :
    ((applyOp demoStore
        (StoreOp.setVisibilityWidget ("abc".toList) false)).displayed
        ("Uncategorized".toList) ≠
      visCount (applyOp demoStore
          (StoreOp.setVisibilityWidget ("abc".toList) false)).rows
        ("Uncategorized".toList)) ∧
    ((applyOps demoStore
        [StoreOp.save { demoPost with id := "xyz".toList } 1 none [],
         StoreOp.setCategory ("abc".toList) ("Most popular".toList)]).displayed
        ("Most popular".toList) ≠
      visCount (applyOps demoStore
          [StoreOp.save { demoPost with id := "xyz".toList } 1 none [],
           StoreOp.setCategory ("abc".toList) ("Most popular".toList)]).rows
        ("Most popular".toList)) := by
  decide

/-- Claim C9 (amended): starting from displayed counts as a refresh leaves
them, after any sequence of save, unsave, category-change and
browser-checkbox visibility-toggle operations (each of whose handler paths
ends in a count refresh) the displayed count of every category not named
"Most popular" equals the number of `saved_posts` rows with that category
and `show_in_categories = true`, while a tree item named "Most popular"
displays `min(200, total visible rows)`; and toggling visibility never
adds or removes saved rows (an invisible row remains a saved post, merely
excluded from the count).  The post-widget visibility toggle performs no
refresh and can leave the displayed counts stale. -/
theorem visibility_count_consistency (s : Store) (ops : List StoreOp)
    (hre : ∀ op ∈ ops, opRefreshes op = true)
    (hinv : countsFresh s) :
    (∀ c, ¬ c = "Most popular".toList →
      (applyOps s ops).displayed c = visCount (applyOps s ops).rows c) ∧
    ((applyOps s ops).displayed ("Most popular".toList) =
      min 200 (totalVisible (applyOps s ops).rows)) ∧
    (∀ rid b,
      (update_post_category_visibility (applyOps s ops) rid b).rows.map
          (fun r => r.reddit_id) =
        (applyOps s ops).rows.map (fun r => r.reddit_id)) := by
  have hfresh := applyOps_counts ops s hre hinv
  refine ⟨?_, ?_, ?_⟩
  · intro c hc
    have h := hfresh c
    rw [if_neg hc] at h
    exact h
  · have h := hfresh ("Most popular".toList)
    rw [if_pos rfl] at h
    exact h
  · intro rid b
    show ((applyOps s ops).rows.map (fun r =>
        if r.reddit_id = rid then { r with show_in_categories := b } else r)).map
        (fun r => r.reddit_id) = _
    rw [List.map_map]
    apply List.map_congr_left
    intro r _
    by_cases hr : r.reddit_id = rid
    · simp [hr]
    · simp [hr]

/-- Concrete operation sequence used by the C9 witness: save a second
post, hide the first via the browser checkbox, change the second post's
category and unsave the first; every operation refreshes the counts. -/
def demoOps : List StoreOp :=
  [StoreOp.save { demoPost with id := "pqr".toList } 1 none [],
   StoreOp.setVisibilityBrowser ("abc".toList) false,
   StoreOp.setCategory ("pqr".toList) ("Tech".toList),
   StoreOp.unsave ("abc".toList)]

/-- Witness for C9 at a concrete input: after the demo operation sequence
the displayed count of the category "Uncategorized" matches the visible-row
count, the "Most popular" item shows the capped total, and a visibility
toggle keeps the same saved rows. -/
theorem visibility_count_consistency_witness :
    ((applyOps demoStore demoOps).displayed ("Uncategorized".toList) =
        visCount (applyOps demoStore demoOps).rows ("Uncategorized".toList)) ∧
      (applyOps demoStore demoOps).displayed ("Most popular".toList) =
        min 200 (totalVisible (applyOps demoStore demoOps).rows) ∧
      (update_post_category_visibility (applyOps demoStore demoOps)
          ("pqr".toList) false).rows.map (fun r => r.reddit_id) =
        (applyOps demoStore demoOps).rows.map (fun r => r.reddit_id) :=
  ⟨(visibility_count_consistency demoStore demoOps (by decide)
      (fun c => rfl)).1 ("Uncategorized".toList) (by decide),
   (visibility_count_consistency demoStore demoOps (by decide)
      (fun c => rfl)).2.1,
   (visibility_count_consistency demoStore demoOps (by decide)
      (fun c => rfl)).2.2 ("pqr".toList) false⟩

/-!
## Theorems for claims C1 and C7
-/

theorem dropWhile_append_of_all {α : Type} {p : α → Bool} (l₁ l₂ : List α)
    (h : ∀ x ∈ l₁, p x) : (l₁ ++ l₂).dropWhile p = l₂.dropWhile p := by
  induction l₁ with
  | nil => simp
  | cons a l ih =>
    simp only [List.cons_append, List.dropWhile_cons, h a (by simp)]
    exact ih (fun x hx => h x (by simp [hx]))

theorem t3_inj {a b : Chars} (h : t3 a = t3 b) : a = b :=
  List.append_cancel_left h

theorem pageFor_cursorOf (listing pre post : List RedditPost)
    (hnd : (listing.map (fun p => p.id)).Nodup) (hL : listing = pre ++ post) :
    pageFor listing (cursorOf pre) = post.take 100 := by
  cases hpre : pre.getLast? with
  | none =>
    have hnil : pre = [] := by
      cases pre with
      | nil => rfl
      | cons a l => rw [List.getLast?_eq_getLast _ (by simp)] at hpre; simp at hpre
    subst hnil
    simp only [List.nil_append] at hL
    subst hL
    simp [pageFor, cursorOf]
  | some lastP =>
    have hne : pre ≠ [] := by
      intro hc
      rw [hc] at hpre
      simp at hpre
    have hdecomp : pre = pre.dropLast ++ [lastP] := by
      have h1 := List.dropLast_append_getLast hne
      have h2 : pre.getLast hne = lastP := by
        rw [List.getLast?_eq_getLast _ hne] at hpre
        exact Option.some_inj.mp hpre
      rw [← h2]
      exact h1.symm
    have hcur : cursorOf pre = some (t3 lastP.id) := by
      simp [cursorOf, hpre]
    rw [hcur]
    show (((listing.dropWhile (fun p => decide (t3 p.id ≠ t3 lastP.id))).drop 1).take
      100) = post.take 100
    have hlist2 : listing = pre.dropLast ++ (lastP :: post) := by
      rw [hL, hdecomp]
      simp
    have hpred : ∀ x ∈ pre.dropLast, (fun p => decide (t3 p.id ≠ t3 lastP.id)) x := by
      intro x hx
      simp only [decide_eq_true_eq]
      intro hc
      have hid : x.id = lastP.id := t3_inj hc
      rw [hlist2, List.map_append] at hnd
      rcases List.nodup_append.mp hnd with ⟨-, -, hdisj⟩
      exact hdisj (List.mem_map_of_mem _ hx)
        (hid ▸ (by simp : lastP.id ∈ (lastP :: post).map (fun p => p.id)))
    rw [hlist2, dropWhile_append_of_all _ _ hpred]
    rw [List.dropWhile_cons]
    simp

theorem fetchAllGo_spec (listing : List RedditPost) (maxPosts : Nat)
    (hnd : (listing.map (fun p => p.id)).Nodup) :
    ∀ (fuel : Nat) (pre post : List RedditPost),
      listing = pre ++ post →
      maxPosts - pre.length < fuel →
      ∃ k, k ≤ post.length ∧
        fetchAllGo (pageFor listing) maxPosts fuel pre (cursorOf pre) =
          pre ++ post.take k ∧
        (maxPosts ≤ pre.length + k ∨ k = post.length) := by
  intro fuel
  induction fuel with
  | zero => intro pre post hL hf; omega
  | succ fuel ih =>
    intro pre post hL hf
    by_cases hlt : pre.length < maxPosts
    · rw [fetchAllGo, if_pos hlt, pageFor_cursorOf listing pre post hnd hL]
      cases hpost : post.take 100 with
      | nil =>
        have hemp : post = [] := by
          cases post with
          | nil => rfl
          | cons a l => simp [List.take_succ_cons] at hpost
        subst hemp
        exact ⟨0, by simp, by simp, Or.inr rfl⟩
      | cons p ps =>
        have hcur2 : cursorOf (pre ++ p :: ps) =
            some (t3 ((p :: ps).getLast (List.cons_ne_nil p ps)).id) := by
          unfold cursorOf
          rw [List.getLast?_append_of_ne_nil _ (by simp),
            List.getLast?_eq_getLast _ (by simp)]
        have hL2 : listing = (pre ++ p :: ps) ++ post.drop 100 := by
          rw [← hpost, List.append_assoc, List.take_append_drop]
          exact hL
        have hf2 : maxPosts - (pre ++ p :: ps).length < fuel := by
          simp only [List.length_append, List.length_cons]
          omega
        obtain ⟨k2, hk2le, hrec, hcond⟩ := ih (pre ++ p :: ps) (post.drop 100) hL2 hf2
        dsimp only
        rw [← hcur2, hrec]
        have hlen1 : ps.length + 1 = min 100 post.length := by
          have := congrArg List.length hpost
          simp at this
          omega
        have hlen2 : (post.drop 100).length = post.length - 100 := by
          simp
        refine ⟨min (100 + k2) post.length, Nat.min_le_right _ _, ?_, ?_⟩
        · rw [List.append_assoc]
          have e1 : (p :: ps : List RedditPost) ++ (post.drop 100).take k2 =
              post.take (100 + k2) := by
            rw [List.take_add, hpost]
          rw [e1]
          have e2 : post.take (100 + k2) = post.take (min (100 + k2) post.length) := by
            rw [List.take_eq_take]
            omega
          rw [e2]
        · rcases hcond with hc | hc
          · simp only [List.length_append, List.length_cons] at hc
            omega
          · rw [hlen2] at hc
            omega
    · rw [fetchAllGo, if_neg hlt]
      exact ⟨0, by simp, by simp, Or.inl (by omega)⟩

/-- Claim C7: when a listing with pairwise-distinct post ids holds more than
`maxPosts` posts, `fetch_all_subreddit_posts` returns exactly the first
`maxPosts` posts of the listing, never more. -/
theorem pagination_ceiling (listing : List RedditPost) (maxPosts : Nat)
    (hnd : (listing.map (fun p => p.id)).Nodup)
    (hmore : maxPosts < listing.length) :
    fetch_all_subreddit_posts (pageFor listing) maxPosts =
        listing.take maxPosts ∧
      (fetch_all_subreddit_posts (pageFor listing) maxPosts).length = maxPosts := by
  obtain ⟨k, hkle, heq, hcond⟩ :=
    fetchAllGo_spec listing maxPosts hnd (maxPosts + 1) [] listing (by simp)
      (by omega)
  have hk : maxPosts ≤ k := by
    rcases hcond with hc | hc
    · simp only [List.length_nil] at hc
      omega
    · omega
  have e : fetch_all_subreddit_posts (pageFor listing) maxPosts =
      listing.take maxPosts := by
    unfold fetch_all_subreddit_posts
    have hcur : (none : Option Chars) = cursorOf [] := by simp [cursorOf]
    rw [hcur, heq]
    simp only [List.nil_append]
    rw [List.take_take]
    congr 1
    omega
  refine ⟨e, ?_⟩
  rw [e, List.length_take]
  omega

/-- Concrete post used in pagination witnesses. -/
def mkPost (i : Nat) : RedditPost :=
  { id := (toString i).toList, title := ("T" ++ toString i).toList, url := none,
    subreddit := "sub".toList, created_utc := 0, num_comments := 0, selftext := [] }

/-- Concrete listing of n posts with pairwise-distinct ids. -/
def mkPosts (n : Nat) : List RedditPost := (List.range n).map mkPost

/-- Witness for C7 at a concrete input: a 5-post listing with ceiling 3
yields exactly the first 3 posts. -/
theorem pagination_ceiling_witness :
    fetch_all_subreddit_posts (pageFor (mkPosts 5)) 3 = (mkPosts 5).take 3 ∧
      (fetch_all_subreddit_posts (pageFor (mkPosts 5)) 3).length = 3 :=
  pagination_ceiling (mkPosts 5) 3 (by decide) (by decide)

theorem selectLoop_spec (savedIds : List Chars) :
    ∀ (A : List RedditPost) (b : RedditPost) (C acc : List RedditPost),
      (∀ a ∈ A, a.id ∉ savedIds) → b.id ∈ savedIds →
      acc.length + A.length + 1 ≤ 200 →
      selectLoop savedIds (A ++ b :: C) acc = acc ++ A ++ [b] := by
  intro A
  induction A with
  | nil =>
    intro b C acc hA hb hlen
    simp [selectLoop, hb]
  | cons a A' ih =>
    intro b C acc hA hb hlen
    show selectLoop savedIds (a :: (A' ++ b :: C)) acc = _
    rw [selectLoop]
    have ha : a.id ∉ savedIds := hA a (by simp)
    rw [if_neg ha]
    have hcap : ¬ (200 ≤ (acc ++ [a]).length) := by
      simp only [List.length_append, List.length_cons, List.length_nil]
      simp only [List.length_cons] at hlen
      omega
    rw [if_neg hcap]
    rw [ih b C (acc ++ [a]) (fun x hx => hA x (by simp [hx])) hb
      (by simp only [List.length_append, List.length_cons, List.length_nil] at hlen ⊢
          omega)]
    simp

/-- Claim C1 (amended): for a listing of pairwise-distinct-id posts
decomposed as A ++ b :: C where no post of A is saved, b is saved, and b
appears within the first 200 positions, the subreddit post-loading
operation selects exactly A ++ [b]: it includes the first saved post and
nothing past it, and never stops earlier.  (When the first saved post
appears after position 200, the 200-post display cap stops the selection
first; see the counterexample.) -/
theorem early_stop (listing : List RedditPost) (savedIds : List Chars)
    (A : List RedditPost) (b : RedditPost) (C : List RedditPost)
    (hnd : (listing.map (fun p => p.id)).Nodup)
    (hdecomp : listing = A ++ b :: C)
    (hcap : A.length + 1 ≤ 200)
    (hA : ∀ a ∈ A, a.id ∉ savedIds)
    (hb : b.id ∈ savedIds) :
    load_subreddit_posts listing savedIds = A ++ [b] := by
  obtain ⟨k, hkle, heq, hcond⟩ :=
    fetchAllGo_spec listing MAX_POSTS hnd (MAX_POSTS + 1) [] listing (by simp)
      (by omega)
  have hLlen : listing.length = A.length + 1 + C.length := by
    rw [hdecomp]
    simp only [List.length_append, List.length_cons]
    omega
  have hMP : MAX_POSTS = 400 := rfl
  have hm : A.length + 1 ≤ min MAX_POSTS k := by
    rcases hcond with hc | hc
    · simp only [List.length_nil] at hc
      omega
    · omega
  unfold load_subreddit_posts
  have e : fetch_all_subreddit_posts (pageFor listing) MAX_POSTS =
      listing.take (min MAX_POSTS k) := by
    unfold fetch_all_subreddit_posts
    have hcur : (none : Option Chars) = cursorOf [] := by simp [cursorOf]
    rw [hcur, heq]
    simp only [List.nil_append]
    rw [List.take_take]
  rw [e]
  obtain ⟨j, hj⟩ : ∃ j, min MAX_POSTS k - A.length = j + 1 :=
    ⟨min MAX_POSTS k - A.length - 1, by omega⟩
  have hsplit : listing.take (min MAX_POSTS k) = A ++ b :: C.take j := by
    rw [hdecomp, List.take_append_eq_append_take]
    have h1 : (A ++ b :: C).take (min MAX_POSTS k) =
        A.take (min MAX_POSTS k) ++ (b :: C).take (min MAX_POSTS k - A.length) := by
      exact List.take_append_eq_append_take
    have h2 : A.take (min MAX_POSTS k) = A := List.take_of_length_le (by omega)
    rw [h2, hj, List.take_succ_cons]
  rw [hsplit]
  have := selectLoop_spec savedIds A b (C.take j) [] hA hb (by simpa using hcap)
  simpa using this

/-- Witness for C1 at a concrete input: a 5-post listing whose third post is
saved yields exactly the first three posts. -/
theorem early_stop_witness :
    load_subreddit_posts (mkPosts 5) [(mkPost 2).id] =
      (mkPosts 5).take 2 ++ [mkPost 2] :=
  early_stop (mkPosts 5) [(mkPost 2).id] ((mkPosts 5).take 2) (mkPost 2)
    ((mkPosts 5).drop 3) (by decide) (by decide) (by decide) (by decide)
    (by decide)

/-- Counterexample to C1 as stated: on a 201-post listing where only the
201st post is saved (and no earlier one is), the post-loading operation
returns the first 200 posts and omits the saved post, not the posts up to
and including it. -/
theorem early_stop_cap_counterexample :
    ((mkPosts 201).map (fun p => p.id)).Nodup ∧
      mkPosts 201 = (mkPosts 201).take 200 ++ [mkPost 200] ∧
      (∀ a ∈ (mkPosts 201).take 200, a.id ∉ [(mkPost 200).id]) ∧
      (mkPost 200).id ∈ [(mkPost 200).id] ∧
      load_subreddit_posts (mkPosts 201) [(mkPost 200).id] =
        (mkPosts 201).take 200 ∧
      load_subreddit_posts (mkPosts 201) [(mkPost 200).id] ≠ mkPosts 201 :=
  ⟨by decide, by decide, by decide, by decide, by decide, by decide⟩

theorem extractCategory_closed (categories : List (Chars × Option Chars))
    (response : Chars) :
    extractCategory categories response = uncategorized ∨
      extractCategory categories response ∈ categories.map Prod.fst := by
  cases h : searchTag catOpen catClose response with
  | none => exact Or.inl (by simp [extractCategory, h])
  | some content =>
    cases hmem : categories.any (fun kv => kv.1 = pyStrip content) with
    | false => exact Or.inl (by simp [extractCategory, h, hmem])
    | true =>
      right
      have he : extractCategory categories response = pyStrip content := by
        simp [extractCategory, h, hmem]
      rw [he]
      rcases List.any_eq_true.mp hmem with ⟨kv, hkv, heq⟩
      have heq2 : kv.1 = pyStrip content := by simpa using heq
      exact heq2 ▸ List.mem_map_of_mem Prod.fst hkv

theorem extractCategory_of_searchTag_none (categories : List (Chars × Option Chars))
    (response : Chars) (h : searchTag catOpen catClose response = none) :
    extractCategory categories response = uncategorized := by
  simp [extractCategory, h]

theorem extractCategory_of_not_mem (categories : List (Chars × Option Chars))
    (response : Chars) (c : Chars)
    (h : searchTag catOpen catClose response = some c)
    (hnot : pyStrip c ∉ categories.map Prod.fst) :
    extractCategory categories response = uncategorized := by
  have hmem : categories.any (fun kv => kv.1 = pyStrip c) = false := by
    rw [List.any_eq_false]
    intro kv hkv
    simp only [decide_eq_true_eq]
    intro heq
    exact hnot (heq ▸ List.mem_map_of_mem Prod.fst hkv)
  simp [extractCategory, h, hmem]

/-- Claim C2: for every post, category map, and completion response, the
category returned by `categorize_post` is a key of the supplied category map
or the literal "Uncategorized"; a category tag whose stripped content is not
in the map, or a response with no category tag at all, yields
"Uncategorized". -/
theorem category_fallback_closure (categories : List (Chars × Option Chars))
    (summary summarizeResult : Option Chars) (response : Chars) :
    ((categorize_post categories summary summarizeResult response).1 =
        uncategorized ∨
      (categorize_post categories summary summarizeResult response).1 ∈
        categories.map Prod.fst) ∧
    (searchTag catOpen catClose response = none →
      (categorize_post categories summary summarizeResult response).1 =
        uncategorized) ∧
    (∀ c, searchTag catOpen catClose response = some c →
      pyStrip c ∉ categories.map Prod.fst →
      (categorize_post categories summary summarizeResult response).1 =
        uncategorized) := by
  refine ⟨?_, ?_, ?_⟩
  · cases summary with
    | none =>
      cases summarizeResult with
      | none => exact Or.inl rfl
      | some s => exact extractCategory_closed categories response
    | some s => exact extractCategory_closed categories response
  · intro h
    cases summary with
    | none =>
      cases summarizeResult with
      | none => rfl
      | some s => exact extractCategory_of_searchTag_none categories response h
    | some s => exact extractCategory_of_searchTag_none categories response h
  · intro c h hnot
    cases summary with
    | none =>
      cases summarizeResult with
      | none => rfl
      | some s => exact extractCategory_of_not_mem categories response c h hnot
    | some s => exact extractCategory_of_not_mem categories response c h hnot

/-- Witness for C2 at a concrete input: a response naming a category outside
the supplied map is coerced to "Uncategorized". -/
theorem category_fallback_closure_witness :
    (categorize_post [("Tech".toList, none)] (some "s".toList) none
        "<category>Gaming</category>".toList).1 = uncategorized :=
  (category_fallback_closure [("Tech".toList, none)] (some "s".toList) none
      "<category>Gaming</category>".toList).2.2 "Gaming".toList (by decide)
    (by decide)

/-- Claim C4: an operation that always returns a sentinel-prefixed result is
invoked exactly 10 times, the wrapper returns failure (none), the sleep
delays are the non-decreasing sequence 1,2,4,8,16,30,30,30,30 starting at 1
and capped at 30, and no sleep follows the last attempt (9 sleeps for 10
attempts). -/
theorem retry_exhaustion (op : Nat → Chars)
    (h : ∀ i, errorSentinel.isPrefixOf (op i) = true) :
    (retry_with_backoff op).result = none ∧
      (retry_with_backoff op).calls = 10 ∧
      (retry_with_backoff op).sleeps = [1, 2, 4, 8, 16, 30, 30, 30, 30] ∧
      (retry_with_backoff op).sleeps.Chain' (· ≤ ·) ∧
      (retry_with_backoff op).sleeps.head? = some 1 ∧
      (∀ d ∈ (retry_with_backoff op).sleeps, d ≤ 30) ∧
      (retry_with_backoff op).sleeps.length = MAX_RETRIES - 1 := by
  have e : retry_with_backoff op = ⟨none, 10, [1, 2, 4, 8, 16, 30, 30, 30, 30]⟩ := by
    simp [retry_with_backoff, retryLoop, h, MAX_RETRIES, MAX_RETRY_DELAY,
      INITIAL_RETRY_DELAY]
  rw [e]
  refine ⟨rfl, rfl, rfl, ?_, rfl, ?_, rfl⟩
  · simp [List.chain'_cons]
  · decide

/-- Witness for C4 at a concrete input: the constant-sentinel operation is
invoked exactly 10 times and the wrapper returns failure. -/
theorem retry_exhaustion_witness :
    (retry_with_backoff fun _ => errorSentinel).calls = 10 ∧
      (retry_with_backoff fun _ => errorSentinel).result = none :=
  ⟨(retry_exhaustion (fun _ => errorSentinel) fun _ =>
      (by decide : List.isPrefixOf errorSentinel errorSentinel = true)).2.1,
    (retry_exhaustion (fun _ => errorSentinel) fun _ =>
      (by decide : List.isPrefixOf errorSentinel errorSentinel = true)).1⟩

end RedditExplorer
